import Mathlib

/-!
# go-ve-sensor: the in-memory FTP file store (`ftpServer/driver.go`)

A shallow embedding of the virtual file system behind the FTP camera driver:
the path helpers, the file registry, the retention sweep, the driver operations
`OpenFile`, `ListFiles` and `GetFileInfo`, authentication and the operations the
driver denies. The register tables of `vedevices/bmv.go` and the poll loop of
`BmvStart` in `device.go` follow in namespaces of their own.

Conventions of the embedding

* Go strings are byte sequences; they are modelled as `List Char`, one
  character per byte.
* `time.Now()` is an explicit argument `now : Nat` of every operation that
  reads the clock.
* The stores are passed explicitly: an operation takes the store and returns
  the store it leaves behind together with its result.
-/

namespace FtpServer

/-! ## Strings and paths -/

/-- A Go string, as the list of its bytes. -/
abbrev GoString := List Char

/-- The separator of slash-separated paths. -/
def slash : Char := '/'

/-- The path element `.`. -/
def dotElem : GoString := ['.']

/-- The path element `..`. -/
def dotdotElem : GoString := ['.', '.']

/-- Go `strings.HasPrefix(s, pre)`. -/
def hasPrefix (s pre : GoString) : Bool := pre.isPrefixOf s

/-- Go `strings.Contains(s, "/")`. -/
def containsSlash (s : GoString) : Bool := s.contains slash

/-- One step of Go `path.Clean` on the path element `e`, with `stack` the
elements written to the output so far: empty elements and `.` are skipped,
`..` removes the last written element when there is one to remove (one that is
not itself a leading `..`), is dropped at the root of a rooted path and is kept
in front of a relative path; any other element is written. -/
def cleanStep (rooted : Bool) (stack : List GoString) (e : GoString) : List GoString :=
  if e = [] ∨ e = dotElem then stack
  else if e = dotdotElem then
    match stack.getLast? with
    | some top => if top = dotdotElem then stack ++ [e] else stack.dropLast
    | none => if rooted then stack else stack ++ [e]
  else stack ++ [e]

/-- Go `path.Clean`, the shortest path equivalent to `path` by purely lexical
processing, by the rules of its documentation: multiple slashes count as one,
each `.` element goes, each inner `..` element goes along with the element
before it, `..` elements that begin a rooted path go, and the empty result is
`.`. `Clean_cleanTests` checks the definition on the table of Go's own tests. -/
def Clean (path : GoString) : GoString :=
  if path = [] then dotElem
  else
    let rooted := path.head? = some slash
    let stack := (path.splitOn slash).foldl (cleanStep rooted) []
    let body := [slash].intercalate stack
    if rooted then slash :: body
    else if stack = [] then dotElem
    else body

/-- Go `bytealg.LastIndexByteString(s, c)`: the index of the last `c` in `s`,
or `-1` when there is none. -/
def lastIndexByte (s : GoString) (c : Char) : Int :=
  match s with
  | [] => -1
  | x :: xs =>
    let r := lastIndexByte xs c
    if 0 ≤ r then r + 1 else if x = c then 0 else -1

/-- Go `path.Split`: `path` cut right after its final slash. -/
def Split (path : GoString) : GoString × GoString :=
  let i := lastIndexByte path slash
  (path.take (i + 1).toNat, path.drop (i + 1).toNat)

/-- Go `path.Dir`: all but the last element of `path`, cleaned. -/
def Dir (path : GoString) : GoString :=
  Clean (Split path).1

/-- The driver's `getDirPath`: the cleaned path, with a trailing slash unless it
is a single byte. -/
def getDirPath (dirPath : GoString) : GoString :=
  let dirPath := Clean dirPath
  if dirPath.length > 1 then dirPath ++ [slash] else dirPath

/-! ## The data model -/

/-- Modelled from the spec: `storage.Device` is declared outside the given
sources. A device has a stable name, its unique key, and a display model. -/
structure Device where
  name : String
  model : String
deriving DecidableEq

/-- Modelled from the spec: the type `VirtualFile` is declared outside the given
sources; the driver sets `device`, `filePath` and `modified`. The spec gives a
file an owning device, a full path, a created timestamp and a payload whose
length is its size. -/
structure VirtualFile where
  device : Device
  filePath : GoString
  created : Nat
  modified : Nat
  content : List Nat
deriving DecidableEq

/-- Modelled from the spec: the created timestamp of a new record. `OpenFile`
hands `FileList.Create` the record `&VirtualFile{device, filePath, modified:
time.Now()}`; the type, declared outside the given sources, also has the created
timestamp, which is the time at which the record is created, and the payload,
which is empty. -/
def newVirtualFile (device : Device) (filePath : GoString) (now : Nat) : VirtualFile :=
  { device := device, filePath := filePath, created := now, modified := now, content := [] }

/-- Modelled from the spec: `VirtualFile.Size`, the payload size. -/
def VirtualFile.Size (vf : VirtualFile) : Nat := vf.content.length

/-- Modelled from the spec: the registry `FileList` is declared outside the
given sources. It is keyed by full path; the entries are kept in the order in
which they were created, the order in which `Iterate` yields them. -/
structure FileList where
  items : List (GoString × VirtualFile)
deriving DecidableEq

/-- Modelled from the spec: `NewFileList`, the registry without files. -/
def NewFileList : FileList := ⟨[]⟩

/-- Modelled from the spec: `FileList.Length`, the number of files. -/
def FileList.Length (fl : FileList) : Nat := fl.items.length

/-- Modelled from the spec: `FileList.Iterate` yields every entry, path and
file. -/
def FileList.Iterate (fl : FileList) : List (GoString × VirtualFile) := fl.items

/-- Modelled from the spec: `FileList.Get`, the file stored at `filePath`. -/
def FileList.Get (fl : FileList) (filePath : GoString) : Option VirtualFile :=
  (fl.items.find? (fun it => it.1 = filePath)).map Prod.snd

/-- Modelled from the spec: `FileList.Delete` removes the file stored at
`filePath`, if any. -/
def FileList.Delete (fl : FileList) (filePath : GoString) : FileList :=
  ⟨fl.items.filter (fun it => it.1 ≠ filePath)⟩

/-- Modelled from the spec: `FileList.Create` stores `file` at `filePath` when
no file is stored there. What it does at a path that holds a file is fixed
neither by the given sources nor by the spec; this model keeps the stored file,
as `os.OpenFile` with `O_CREATE` keeps an existing file. `OpenFile` reaches that
case only on an append-open, and on an open with `O_CREATE` and without
`O_WRONLY`, of a path that holds a file. -/
def FileList.Create (fl : FileList) (filePath : GoString) (file : VirtualFile) : FileList :=
  match fl.Get filePath with
  | some _ => fl
  | none => ⟨fl.items ++ [(filePath, file)]⟩

/-- Modelled from the spec: the registry `DirectoryList` is declared outside the
given sources; it holds the paths of the directories created so far. -/
structure DirectoryList where
  items : List GoString
deriving DecidableEq

/-- Modelled from the spec: `NewDirectoryList`, the registry without
directories. -/
def NewDirectoryList : DirectoryList := ⟨[]⟩

/-- Modelled from the spec: `DirectoryList.Exists`. -/
def DirectoryList.Exists (dl : DirectoryList) (path : GoString) : Bool :=
  dl.items.contains path

/-- Modelled from the spec: `DirectoryList.Iterate` yields every directory. -/
def DirectoryList.Iterate (dl : DirectoryList) : List GoString := dl.items

/-- The ancestors of `path`, nearest last, found by repeated `path.Dir`. -/
def ancestors : Nat → GoString → List GoString
  | 0, _ => []
  | n + 1, path =>
    let d := Dir path
    if d = path then [] else ancestors n d ++ [d]

/-- Modelled from the spec: `DirectoryList.Create` is idempotent and creates all
missing ancestor segments. -/
def DirectoryList.Create (dl : DirectoryList) (path : GoString) : DirectoryList :=
  ⟨(ancestors path.length path ++ [path]).foldl
    (fun acc d => if acc.contains d then acc else acc ++ [d]) dl.items⟩

/-- The driver's `VirtualFileSystem`: the directory and the file registry. -/
structure VirtualFileSystem where
  directories : DirectoryList
  files : FileList
deriving DecidableEq

/-- The store of `NewDriver`: no directories, no files. -/
def NewVirtualFileSystem : VirtualFileSystem :=
  { directories := NewDirectoryList, files := NewFileList }

/-- The driver's `VirtualFileInfo`, an `os.FileInfo`. -/
structure VirtualFileInfo where
  name : GoString
  mode : Nat
  size : Nat
  modified : Nat
deriving DecidableEq

/-- Go `os.ModeDir`, the directory bit of a file mode. -/
def ModeDir : Nat := 2 ^ 31

/-- Go `os.FileMode(0666)`. -/
def mode0666 : Nat := 0o666

/-- Go `FileMode.IsDir`. -/
def VirtualFileInfo.IsDir (fi : VirtualFileInfo) : Bool := fi.mode &&& ModeDir ≠ 0

/-- The errors the driver returns. -/
inductive DriverError where
  | ErrNotExist
  | ErrPermission
  | ErrBadLogin
  | ErrDeviceNotFound
deriving DecidableEq

/-- Go `os.O_WRONLY` (Linux). -/
def O_WRONLY : Nat := 0x1

/-- Go `os.O_CREATE` (Linux). -/
def O_CREATE : Nat := 0x40

/-- Go `os.O_APPEND` (Linux). -/
def O_APPEND : Nat := 0x400

/-- Go `os.O_RDONLY`. -/
def O_RDONLY : Nat := 0x0

/-! ## The driver -/

/-- The test both `ListFiles` and `getFilesInsidePath` apply to a stored path:
it starts with `dirPath`, and what follows is not empty and has no slash. -/
def insidePath (dirPath filePath : GoString) : Bool :=
  if !hasPrefix filePath dirPath then false
  else
    let reminder := filePath.drop dirPath.length
    if reminder.length < 1 || containsSlash reminder then false else true

/-- Modelled from the spec: the order of `VirtualFileByCreated`, ascending by
created timestamp. -/
def createdLE (a b : VirtualFile) : Prop := a.created ≤ b.created

instance : DecidableRel createdLE := fun a b => Nat.decLe a.created b.created

instance : IsTotal VirtualFile createdLE := ⟨fun a b => Nat.le_total a.created b.created⟩

instance : IsTrans VirtualFile createdLE := ⟨fun _ _ _ h1 h2 => Nat.le_trans h1 h2⟩

/-- Modelled from the spec: `sort.Sort(VirtualFileByCreated(ret))`, ascending by
created timestamp, ties kept in their order (stable). -/
def sortByCreated (ret : List VirtualFile) : List VirtualFile :=
  ret.insertionSort createdLE

/-- The driver's `FileList.getFilesInsidePath`: the files directly inside
`dirPath`, sorted by creation time. -/
def FileList.getFilesInsidePath (fl : FileList) (dirPath : GoString) : List VirtualFile :=
  sortByCreated ((fl.Iterate.filter (fun item => insidePath dirPath item.1)).map Prod.snd)

/-- The driver's `VirtualFile.getFileInfo`. -/
def VirtualFile.getFileInfo (vf : VirtualFile) (name : GoString) : VirtualFileInfo :=
  { name := name, mode := mode0666, size := vf.Size, modified := vf.modified }

/-- The loop of `pathRetention`, `for i := 0; i <= len(fileList)-5; i++`, at
index `i` with `rest` the files from index `i` on: it deletes
`fileList[i].filePath` while the guard holds. -/
def retentionLoop (len : Nat) : Nat → List VirtualFile → FileList → FileList
  | _, [], files => files
  | i, f :: rest, files =>
    if (i : Int) ≤ (len : Int) - 5 then retentionLoop len (i + 1) rest (files.Delete f.filePath)
    else files

/-- The driver's `VirtualFileSystem.pathRetention`. -/
def VirtualFileSystem.pathRetention (vfs : VirtualFileSystem) (dirPath : GoString) :
    VirtualFileSystem :=
  let fileList := vfs.files.getFilesInsidePath dirPath
  { vfs with files := retentionLoop fileList.length 0 fileList vfs.files }

/-- The driver's `ClientDriver.OpenFile`, for a session bound to `device`: the
store it leaves and the file it returns, or the error. -/
def OpenFile (vfs : VirtualFileSystem) (device : Device) (filePath : GoString) (flag : Nat)
    (now : Nat) : VirtualFileSystem × Except DriverError VirtualFile :=
  let vfs := vfs.pathRetention (getDirPath (Dir filePath))
  let wr : Nat × FileList :=
    if flag &&& O_WRONLY ≠ 0 then
      let flag := flag ||| O_CREATE
      if flag &&& O_APPEND = 0 then (flag, vfs.files.Delete filePath) else (flag, vfs.files)
    else (flag, vfs.files)
  let files :=
    if wr.1 &&& O_CREATE ≠ 0 then wr.2.Create filePath (newVirtualFile device filePath now)
    else wr.2
  ({ vfs with files := files },
    match files.Get filePath with
    | none => .error .ErrNotExist
    | some file => .ok file)

/-- The entry `ListFiles` and `GetFileInfo` report for a directory. -/
def directoryInfo (name : GoString) (now : Nat) : VirtualFileInfo :=
  { name := name, mode := mode0666 ||| ModeDir, size := 4096, modified := now }

/-- The driver's `ClientDriver.ListFiles` for a session whose current path is
`ccPath`: the subdirectories first, then the files. -/
def ListFiles (vfs : VirtualFileSystem) (ccPath : GoString) (now : Nat) : List VirtualFileInfo :=
  let dirPath := getDirPath ccPath
  let dirs := vfs.directories.Iterate.filterMap (fun directory =>
    if insidePath dirPath directory then some (directoryInfo (directory.drop dirPath.length) now)
    else none)
  let fileList := vfs.files.getFilesInsidePath dirPath
  dirs ++ fileList.map (fun file => file.getFileInfo (file.filePath.drop dirPath.length))

/-- The driver's `ClientDriver.GetFileInfo`. -/
def GetFileInfo (vfs : VirtualFileSystem) (path : GoString) (now : Nat) :
    Except DriverError VirtualFileInfo :=
  match vfs.files.Get path with
  | some file => .ok (file.getFileInfo path)
  | none =>
    if !vfs.directories.Exists path then .ok (directoryInfo path now)
    else .error .ErrNotExist

/-- The driver's `ClientDriver.MakeDirectory`. -/
def MakeDirectory (vfs : VirtualFileSystem) (directory : GoString) : VirtualFileSystem :=
  { vfs with directories := vfs.directories.Create (Clean directory) }

/-- The driver's `ClientDriver.ChangeDirectory`, which creates the directory on
the fly. -/
def ChangeDirectory (vfs : VirtualFileSystem) (directory : GoString) : VirtualFileSystem :=
  { vfs with directories := vfs.directories.Create (Clean directory) }

/-! ## Auxiliary notions for the statements -/

/-- A proper path element: not empty, not `.`, not `..`, without a slash. -/
def validElem (e : GoString) : Prop :=
  e ≠ [] ∧ e ≠ dotElem ∧ e ≠ dotdotElem ∧ slash ∉ e

/-- The rooted path with the elements `segs`. -/
def absPath (segs : List GoString) : GoString := slash :: [slash].intercalate segs

/-- A clean absolute path: `path.Clean` leaves it as it is, and it starts with a
slash. -/
def cleanAbsolute (p : GoString) : Prop := Clean p = p ∧ p.head? = some slash

instance (p : GoString) : Decidable (cleanAbsolute p) := by
  unfold cleanAbsolute; infer_instance

/-- The representation invariant of the file registry: it is a map, with at most
one entry per path, and every file is stored under its own `filePath`, as
`OpenFile` stores it. -/
def FileList.WF (fl : FileList) : Prop :=
  (fl.items.map Prod.fst).Nodup ∧ ∀ it ∈ fl.items, it.2.filePath = it.1

instance (fl : FileList) : Decidable fl.WF := by
  unfold FileList.WF; infer_instance

/-- The paths `pathRetention` deletes for `dirPath`: those of all the files
directly inside it, in creation order, except the last four. -/
def swept (fl : FileList) (dirPath : GoString) : List GoString :=
  ((fl.getFilesInsidePath dirPath).take ((fl.getFilesInsidePath dirPath).length - 4)).map
    VirtualFile.filePath

/-- The file registry `OpenFile` leaves, given the registry `files` left by its
retention sweep: a write-open that does not append deletes the file at
`filePath`; a write-open or a create-open then stores a new record there unless
the path holds a file. -/
def openFiles (files : FileList) (device : Device) (filePath : GoString) (flag now : Nat) :
    FileList :=
  let files :=
    if flag &&& O_WRONLY ≠ 0 then
      if flag &&& O_APPEND = 0 then files.Delete filePath else files
    else files
  if flag &&& O_WRONLY ≠ 0 ∨ flag &&& O_CREATE ≠ 0 then
    files.Create filePath (newVirtualFile device filePath now)
  else files

/-- The file `f` stored at `p` is the newest of the registry: every file stored at
another path was created before it. -/
def FileList.Newest (fl : FileList) (p : GoString) (f : VirtualFile) : Prop :=
  fl.WF ∧ fl.Get p = some f ∧ ∀ it ∈ fl.items, it.1 ≠ p → it.2.created < f.created

/-- The files directly inside `dirPath`, in the order of the registry. -/
def insideFiles (fl : FileList) (dirPath : GoString) : List VirtualFile :=
  (fl.items.filter (fun it => insidePath dirPath it.1)).map Prod.snd

/-- What a write-open of a new path does to the list of the files inside its
directory: all but the last four go, the new file comes last. -/
def retainStep (L : List VirtualFile) (f : VirtualFile) : List VirtualFile :=
  L.drop (L.length - 4) ++ [f]

/-- Strictly older, by created timestamp. -/
def createdLT (a b : VirtualFile) : Prop := a.created < b.created

/-- One call of `OpenFile`: the session's device, the path, the flags and the
time of the call. -/
structure OpenCall where
  device : Device
  filePath : GoString
  flag : Nat
  now : Nat
deriving DecidableEq

/-- The record the call stores when it creates a file. -/
def OpenCall.file (c : OpenCall) : VirtualFile := newVirtualFile c.device c.filePath c.now

/-- The store after a sequence of `OpenFile` calls. -/
def runOpenFiles (vfs : VirtualFileSystem) (calls : List OpenCall) : VirtualFileSystem :=
  calls.foldl (fun v c => (OpenFile v c.device c.filePath c.flag c.now).1) vfs

/-- Modelled from the spec: `VirtualFile.Write`, a write of the bytes `b` through
the handle, which extends the payload. -/
def VirtualFile.Write (vf : VirtualFile) (b : List Nat) : VirtualFile :=
  { vf with content := vf.content ++ b }

/-- Modelled from the spec: `VirtualFile.Close` at time `now` finalizes the file:
its size is that of the payload written, its modified time is fixed. -/
def VirtualFile.Close (vf : VirtualFile) (now : Nat) : VirtualFile :=
  { vf with modified := now }

/-- The registry after the record stored at `filePath` was changed by `f`. The
registry holds pointers and a handle is the pointer stored at its path, so what a
session does to its handle is done to the stored record. -/
def FileList.modify (fl : FileList) (filePath : GoString) (f : VirtualFile → VirtualFile) :
    FileList :=
  ⟨fl.items.map (fun it => if it.1 = filePath then (it.1, f it.2) else it)⟩

/-- The store after the bytes `b` were written through the handle of `filePath`. -/
def writeHandle (vfs : VirtualFileSystem) (filePath : GoString) (b : List Nat) :
    VirtualFileSystem :=
  { vfs with files := vfs.files.modify filePath (fun vf => vf.Write b) }

/-- Modelled from the spec: the store after the handle of `filePath` was closed at
time `now`; closing finalizes the file and triggers the retention sweep for the
directory that contains it. -/
def closeHandle (vfs : VirtualFileSystem) (filePath : GoString) (now : Nat) :
    VirtualFileSystem :=
  ({ vfs with files := vfs.files.modify filePath (fun vf => vf.Close now) }).pathRetention
    (getDirPath (Dir filePath))

/-! ## Example sessions -/

/-- The table `cleantests` of Go's tests of `path.Clean`: path and result. -/
def cleanTests : List (String × String) :=
  [("", "."), ("abc", "abc"), ("abc/def", "abc/def"), ("a/b/c", "a/b/c"), (".", "."),
    ("..", ".."), ("../..", "../.."), ("../../abc", "../../abc"), ("/abc", "/abc"), ("/", "/"),
    ("abc/", "abc"), ("abc/def/", "abc/def"), ("a/b/c/", "a/b/c"), ("./", "."), ("../", ".."),
    ("../../", "../.."), ("/abc/", "/abc"), ("abc//def//ghi", "abc/def/ghi"),
    ("//abc", "/abc"), ("///abc", "/abc"), ("//abc//", "/abc"), ("abc//", "abc"),
    ("abc/./def", "abc/def"), ("/./abc/def", "/abc/def"), ("abc/.", "abc"),
    ("abc/def/ghi/../jkl", "abc/def/jkl"), ("abc/def/../ghi/../jkl", "abc/jkl"),
    ("abc/def/..", "abc"), ("abc/def/../..", "."), ("/abc/def/../..", "/"),
    ("abc/def/../../..", ".."), ("/abc/def/../../..", "/"),
    ("abc/def/../../../ghi/jkl/../../../mno", "../../mno"), ("abc/./../def", "def"),
    ("abc//./../def", "def"), ("abc/../../././../def", "../../def")]

/-- The table `dirtests` of Go's tests of `path.Dir`: path and result. -/
def dirTests : List (String × String) :=
  [("", "."), (".", "."), ("/.", "/"), ("/", "/"), ("////", "/"), ("/foo", "/"), ("x/", "x"),
    ("abc", "."), ("abc/def", "abc"), ("abc////def", "abc"), ("a/b/.x", "a/b"),
    ("a/b/c.", "a/b"), ("a/b/c.x", "a/b")]


/-- The camera of the examples. -/
def cam1 : Device := { name := "cam1", model := "ftpCamera" }

/-- A second camera. -/
def cam2 : Device := { name := "cam2", model := "ftpCamera" }

/-- The directory `/cam1/`. -/
def cam1Dir : GoString := "/cam1/".toList

/-- A write-open, without append, of `name` inside `/cam1/` by `device` at time
`now`. -/
def writeCall (device : Device) (name : String) (now : Nat) : OpenCall :=
  { device := device, filePath := cam1Dir ++ name.toList, flag := O_WRONLY, now := now }

/-- The uploads `a`, `b`, `c`, `d`, `e`, `f` to `/cam1/` by `cam1`, at the times 1 to 6. -/
def sixWrites : List OpenCall :=
  [writeCall cam1 "a" 1, writeCall cam1 "b" 2, writeCall cam1 "c" 3, writeCall cam1 "d" 4,
    writeCall cam1 "e" 5, writeCall cam1 "f" 6]

/-- The store after `cam1` uploaded `a`, `b`, `c`, `d`, `e` to `/cam1/`. -/
def fiveFiles : VirtualFileSystem := runOpenFiles NewVirtualFileSystem (sixWrites.take 5)

/-- The names of the files directly inside `dirPath`, in the order of
`getFilesInsidePath`. -/
def namesInside (vfs : VirtualFileSystem) (dirPath : GoString) : List String :=
  (vfs.files.getFilesInsidePath dirPath).map (fun f => String.mk (f.filePath.drop dirPath.length))

/-- The path `/cam1//a`, which `path.Clean` would shorten to `/cam1/a`. -/
def uncleanPath : GoString := "/cam1//a".toList

/-- The store after `cam1` uploaded `/cam1//a` at time 1. -/
def uncleanStore : VirtualFileSystem :=
  (OpenFile NewVirtualFileSystem cam1 uncleanPath O_WRONLY 1).1

/-- The store in which only the directory `/cam1` was made. -/
def cam1Made : VirtualFileSystem := MakeDirectory NewVirtualFileSystem "/cam1".toList

/-! ## Authentication and the unsupported operations -/

/-- Modelled from the spec: `config.FtpCameraConfig` is declared outside the given
sources; the driver reads `Name`, `User` and `Password` of a camera. -/
structure FtpCameraConfig where
  Name : String
  User : String
  Password : String
deriving DecidableEq

/-- The driver's `MainDriver`. -/
structure MainDriver where
  vfs : VirtualFileSystem
  listenHost : String
  listenPort : Int
  cameras : List FtpCameraConfig
deriving DecidableEq

/-- The driver's `ClientDriver`: the store it works on and the device of the
session. -/
structure ClientDriver where
  vfs : VirtualFileSystem
  device : Device
deriving DecidableEq

/-- The driver's `NewDriver`: a new, empty virtual file system. -/
def NewDriver (listenHost : String) (listenPort : Int) (cameras : List FtpCameraConfig) :
    MainDriver :=
  { vfs := NewVirtualFileSystem, listenHost := listenHost, listenPort := listenPort,
    cameras := cameras }

/-- Modelled from the spec: `storage.GetByName` over the registered devices, in
creation order: the device with that name, or not found. -/
def Storage.GetByName (devices : List Device) (name : String) : Except DriverError Device :=
  match devices.find? (fun d => d.name = name) with
  | some device => .ok device
  | none => .error .ErrDeviceNotFound

/-- The loop of `AuthUser` over the cameras that are left. -/
def authLoop (vfs : VirtualFileSystem) (devices : List Device) (user pass : String) :
    List FtpCameraConfig → Except DriverError ClientDriver
  | [] => .error .ErrBadLogin
  | camera :: rest =>
    if camera.User = user ∧ camera.Password = pass then
      match Storage.GetByName devices camera.Name with
      | .error err => .error err
      | .ok device => .ok { vfs := vfs, device := device }
    else authLoop vfs devices user pass rest

/-- The driver's `MainDriver.AuthUser`, with `devices` the registered devices. -/
def AuthUser (driver : MainDriver) (devices : List Device) (user pass : String) :
    Except DriverError ClientDriver :=
  authLoop driver.vfs devices user pass driver.cameras

/-- The driver's `ClientDriver.ChmodFile`: the store it leaves and the error it
returns. -/
def ChmodFile (vfs : VirtualFileSystem) (path : GoString) (mode : Nat) :
    VirtualFileSystem × Option DriverError :=
  (vfs, some .ErrPermission)

/-- The driver's `ClientDriver.DeleteFile`. -/
def DeleteFile (vfs : VirtualFileSystem) (path : GoString) :
    VirtualFileSystem × Option DriverError :=
  (vfs, some .ErrPermission)

/-- The driver's `ClientDriver.RenameFile`. -/
def RenameFile (vfs : VirtualFileSystem) (src dst : GoString) :
    VirtualFileSystem × Option DriverError :=
  (vfs, some .ErrPermission)

/-- The store after `cam1` uploaded `/cam1/sub/x` into the empty store: no
directory was ever made. -/
def impliedStore : VirtualFileSystem :=
  (OpenFile NewVirtualFileSystem cam1 "/cam1/sub/x".toList O_WRONLY 1).1

/-- The store `impliedStore` after the directory `/cam1/sub` was made. -/
def madeStore : VirtualFileSystem := MakeDirectory impliedStore "/cam1/sub".toList

/-- Two cameras that share the user name `cam` and one with another. -/
def exampleCameras : List FtpCameraConfig :=
  [{ Name := "cam1", User := "cam", Password := "one" },
    { Name := "cam2", User := "cam", Password := "two" },
    { Name := "cam3", User := "other", Password := "one" }]

/-- The main driver of the examples. -/
def exampleDriver : MainDriver := NewDriver "localhost" 2121 exampleCameras

/-- The registered devices of the examples; `cam3` is not registered. -/
def exampleDevices : List Device := [cam1, cam2]

end FtpServer

/-! # The register tables (`vedevices/bmv.go`) -/

namespace Vedevices

/-- A `float64` constant of the source, kept as the fraction it is written as:
`0.01` is `1/100`, `float64(24) / float64(86400)` is `24/86400`. -/
structure Fraction where
  num : Nat
  den : Nat
deriving DecidableEq

/-- Modelled from the spec: the type `Register` is declared outside the given
sources; the tables set `Address`, `Factor`, `Unit`, `Signed` and
`RoundDecimals`. -/
structure Register where
  Address : Nat
  Factor : Fraction
  Unit : String
  Signed : Bool
  RoundDecimals : Nat
deriving DecidableEq

/-- Modelled from the spec: the type `Registers`, a Go map from signal name to
register, as the list of its entries. -/
abbrev Registers := List (String × Register)

/-- The register stored under `name`. -/
def Registers.get (m : Registers) (name : String) : Option Register :=
  (m.find? (fun e => e.1 = name)).map Prod.snd

/-- The map after `m[name] = reg`: an entry under `name` is replaced, a new
name is added. -/
def Registers.set (m : Registers) (name : String) (reg : Register) : Registers :=
  if m.any (fun e => e.1 = name) then
    m.map (fun e => if e.1 = name then (name, reg) else e)
  else m ++ [(name, reg)]

/-- Modelled from the spec: `mergeRegisters` is declared outside the given
sources. It returns the union of its arguments: every entry of `a`, then every
entry of `b`, an entry of `b` replacing one of `a` with the same name. -/
def mergeRegisters (a b : Registers) : Registers :=
  b.foldl (fun out e => out.set e.1 e.2) (a.foldl (fun out e => out.set e.1 e.2) [])

/-- The source's `RegisterListBmv700Essential`. -/
def RegisterListBmv700Essential : Registers :=
  [("MainVoltage",
      { Address := 0xED8D, Factor := ⟨1, 100⟩, Unit := "V", Signed := false,
        RoundDecimals := 2 }),
    ("Current",
      { Address := 0xED8F, Factor := ⟨1, 10⟩, Unit := "A", Signed := true,
        RoundDecimals := 1 }),
    ("Power",
      { Address := 0xED8E, Factor := ⟨1, 1⟩, Unit := "W", Signed := true,
        RoundDecimals := 0 })]

/-- The table that the source merges with the essential one into
`RegisterListBmv700`. -/
def RegisterListBmv700Additions : Registers :=
  [("Consumed",
      { Address := 0xEEFF, Factor := ⟨1, 10⟩, Unit := "Ah", Signed := true,
        RoundDecimals := 1 }),
    ("StateOfCharge",
      { Address := 0x0FFF, Factor := ⟨1, 100⟩, Unit := "%", Signed := false,
        RoundDecimals := 0 }),
    ("TimeToGo",
      { Address := 0x0FFE, Factor := ⟨1, 1⟩, Unit := "min", Signed := false,
        RoundDecimals := 0 }),
    ("Temperature",
      { Address := 0xEDEC, Factor := ⟨1, 100⟩, Unit := "K", Signed := false,
        RoundDecimals := 1 }),
    ("DepthOfTheDeepestDischarge",
      { Address := 0x0300, Factor := ⟨1, 10⟩, Unit := "Ah", Signed := true,
        RoundDecimals := 0 }),
    ("DepthOfTheLastDischarge",
      { Address := 0x0301, Factor := ⟨1, 10⟩, Unit := "Ah", Signed := true,
        RoundDecimals := 0 }),
    ("DepthOfTheAverageDischarge",
      { Address := 0x0302, Factor := ⟨1, 10⟩, Unit := "Ah", Signed := true,
        RoundDecimals := 0 }),
    ("NumberOfCycles",
      { Address := 0x0303, Factor := ⟨1, 1⟩, Unit := "", Signed := false,
        RoundDecimals := 0 }),
    ("NumberOfFullDischarges",
      { Address := 0x0304, Factor := ⟨1, 1⟩, Unit := "", Signed := false,
        RoundDecimals := 0 }),
    ("CumulativeAmpHours",
      { Address := 0x0305, Factor := ⟨1, 10⟩, Unit := "Ah", Signed := true,
        RoundDecimals := 0 }),
    ("MainVoltageMinimum",
      { Address := 0x0306, Factor := ⟨1, 100⟩, Unit := "V", Signed := false,
        RoundDecimals := 2 }),
    ("MainVoltageMaximum",
      { Address := 0x0307, Factor := ⟨1, 100⟩, Unit := "V", Signed := false,
        RoundDecimals := 2 }),
    ("HoursSinceFullCharge",
      { Address := 0x0308, Factor := ⟨24, 86400⟩, Unit := "h", Signed := false,
        RoundDecimals := 1 }),
    ("NumberOfAutomaticSynchronizations",
      { Address := 0x0309, Factor := ⟨1, 1⟩, Unit := "", Signed := false,
        RoundDecimals := 0 }),
    ("NumberOfLowMainVoltageAlarms",
      { Address := 0x030A, Factor := ⟨1, 1⟩, Unit := "", Signed := false,
        RoundDecimals := 0 }),
    ("NumberOfHighMainVoltageAlarms",
      { Address := 0x030B, Factor := ⟨1, 1⟩, Unit := "", Signed := false,
        RoundDecimals := 0 }),
    ("AmountOfDischargedEnergy",
      { Address := 0x0310, Factor := ⟨1, 100⟩, Unit := "kWh", Signed := false,
        RoundDecimals := 1 }),
    ("AmountOfChargedEnergy",
      { Address := 0x0311, Factor := ⟨1, 100⟩, Unit := "kWh", Signed := false,
        RoundDecimals := 1 })]

/-- The source's `RegisterListBmv700`. -/
def RegisterListBmv700 : Registers :=
  mergeRegisters RegisterListBmv700Essential RegisterListBmv700Additions

/-- The table that the source merges with `RegisterListBmv700` into
`RegisterListBmv702`; the entries the source comments out are left out. -/
def RegisterListBmv702Additions : Registers :=
  [("AuxVoltage",
      { Address := 0xED7D, Factor := ⟨1, 100⟩, Unit := "V", Signed := false,
        RoundDecimals := 2 }),
    ("MidPointVoltage",
      { Address := 0x0382, Factor := ⟨1, 100⟩, Unit := "V", Signed := false,
        RoundDecimals := 2 }),
    ("MidPointVoltageDeviation",
      { Address := 0x0383, Factor := ⟨1, 10⟩, Unit := "%", Signed := true,
        RoundDecimals := 1 }),
    ("AuxVoltageMinimum",
      { Address := 0x030E, Factor := ⟨1, 100⟩, Unit := "V", Signed := true,
        RoundDecimals := 2 }),
    ("AuxVoltageMaximum",
      { Address := 0x030F, Factor := ⟨1, 100⟩, Unit := "V", Signed := true,
        RoundDecimals := 2 })]

/-- The source's `RegisterListBmv702`. -/
def RegisterListBmv702 : Registers :=
  mergeRegisters RegisterListBmv700 RegisterListBmv702Additions

/-- The entries of the three tables the source declares, one after the other. -/
def declaredTables : Registers :=
  RegisterListBmv700Essential ++ RegisterListBmv700Additions ++ RegisterListBmv702Additions

end Vedevices

/-! # The poll loop of `BmvStart` (`device.go`) -/

namespace BmvDevice

/-- Modelled from the spec: `bmv.NumericValues`, a Go map from register name to
numeric value, as the list of its entries; `V` is the type of a value. -/
abbrev NumericValues (V : Type) := List (String × V)

/-- The value stored under `regName`. -/
def NumericValues.get {V : Type} (m : NumericValues V) (regName : String) : Option V :=
  (m.find? (fun e => e.1 = regName)).map Prod.snd

/-- The map after `m[regName] = v`. -/
def NumericValues.set {V : Type} (m : NumericValues V) (regName : String) (v : V) :
    NumericValues V :=
  if m.any (fun e => e.1 = regName) then
    m.map (fun e => if e.1 = regName then (regName, v) else e)
  else m ++ [(regName, v)]

/-- The body of the loop over the registers: `recv reg` is the answer of
`reg.RecvNumeric(vd)` in this tick, `none` for an error, which is only logged; a
value that was received is stored under the name of its register. -/
def pollRegister {R V : Type} (recv : R → Option V) (numericValues : NumericValues V)
    (reg : String × R) : NumericValues V :=
  match recv reg.2 with
  | none => numericValues
  | some numericValue => numericValues.set reg.1 numericValue

/-- The loop `for regName, reg := range registers` of one tick. -/
def pollRegisters {R V : Type} (registers : List (String × R)) (recv : R → Option V)
    (numericValues : NumericValues V) : NumericValues V :=
  registers.foldl (pollRegister recv) numericValues

/-- One tick of the reader of `BmvStart`, for a device of type `configType`, with
`list700` and `list702` the tables `bmv.RegisterList700` and `bmv.RegisterList702`
(declared outside the given sources): the mapping passed to `Write`, which the
reader keeps for the next tick, or `none` where `log.Fatalf` ends the process on
an unknown type. -/
def pollTick {R V : Type} (configType : String) (list700 list702 : List (String × R))
    (recv : R → Option V) (numericValues : NumericValues V) : Option (NumericValues V) :=
  if configType = "700" then some (pollRegisters list700 recv numericValues)
  else if configType = "702" then some (pollRegisters list702 recv numericValues)
  else none

/-- The reader of `BmvStart` over the ticks whose answers are `ticks`, from the
mapping `numericValues`: the mappings passed to `Write`, tick by tick. -/
def pollLoop {R V : Type} (configType : String) (list700 list702 : List (String × R)) :
    List (R → Option V) → NumericValues V → List (NumericValues V)
  | [], _ => []
  | recv :: ticks, numericValues =>
    match pollTick configType list700 list702 recv numericValues with
    | none => []
    | some written => written :: pollLoop configType list700 list702 ticks written

/-- The mappings `BmvStart` passes to `Write`: the reader starts with the empty
mapping `make(bmv.NumericValues)`. -/
def BmvStart {R V : Type} (configType : String) (list700 list702 : List (String × R))
    (ticks : List (R → Option V)) : List (NumericValues V) :=
  pollLoop configType list700 list702 ticks []

/-- What the mapping holds for a register after it held `kept` and the read of
this tick answered `answer`: the value read, or on an error what it held. -/
def keepLast {V : Type} (kept answer : Option V) : Option V :=
  match answer with
  | some v => some v
  | none => kept

/-- The value of the last read that succeeded among the answers `answers` of the
ticks so far, oldest first, and `start` if none did. -/
def lastRead {V : Type} (start : Option V) (answers : List (Option V)) : Option V :=
  answers.foldl keepLast start

/-- A table with the one register `MainVoltage`, at the address `0xED8D`. -/
def oneRegister : List (String × Nat) := [("MainVoltage", 0xED8D)]

/-- The device answers `1250` for the register at `0xED8D`. -/
def answers : Nat → Option Nat := fun address => if address = 0xED8D then some 1250 else none

/-- The device does not answer. -/
def silent : Nat → Option Nat := fun _ => none

end BmvDevice

namespace FtpServer

/-! ## Paths -/

theorem Clean_cleanTests : ∀ t ∈ cleanTests, Clean t.1.toList = t.2.toList := by
  decide

theorem Dir_dirTests : ∀ t ∈ dirTests, Dir t.1.toList = t.2.toList := by
  decide

theorem not_mem_of_mem_splitOn (c : Char) (l : GoString) :
    ∀ e ∈ l.splitOn c, c ∉ e := by
  induction l with
  | nil => simp
  | cons hd tl ih =>
    intro e he
    simp only [List.splitOn, List.splitOnP_cons] at he ih
    split_ifs at he with h
    · rcases List.mem_cons.1 he with rfl | he
      · simp
      · exact ih e he
    · cases hs : List.splitOnP (fun x => x == c) tl with
      | nil => simp [hs] at he
      | cons a as =>
        rw [hs] at he ih
        simp only [List.modifyHead_cons, List.mem_cons] at he
        rcases he with rfl | he
        · have := ih a (List.mem_cons_self _ _)
          simp only [List.mem_cons, not_or]
          exact ⟨fun hc => h (by simp [hc]), this⟩
        · exact ih e (List.mem_cons_of_mem _ he)

theorem cleanStep_valid (stack : List GoString) (e : GoString)
    (hs : ∀ s ∈ stack, validElem s) (he : slash ∉ e) :
    ∀ s ∈ cleanStep true stack e, validElem s := by
  unfold cleanStep
  by_cases h1 : e = [] ∨ e = dotElem
  · rw [if_pos h1]; exact hs
  · rw [if_neg h1]
    by_cases h2 : e = dotdotElem
    · rw [if_pos h2]
      cases hl : stack.getLast? with
      | none => simpa using hs
      | some top =>
        have ht : top ∈ stack := List.mem_of_getLast?_eq_some hl
        simp only [if_neg (hs top ht).2.2.1]
        intro s hs'
        exact hs s (List.mem_of_mem_dropLast hs')
    · rw [if_neg h2]
      intro s hs'
      rcases List.mem_append.1 hs' with h | h
      · exact hs s h
      · simp only [List.mem_singleton] at h
        subst h
        push_neg at h1
        exact ⟨h1.1, h1.2, h2, he⟩

theorem foldl_cleanStep_valid (elems stack : List GoString)
    (hs : ∀ s ∈ stack, validElem s) (he : ∀ e ∈ elems, slash ∉ e) :
    ∀ s ∈ elems.foldl (cleanStep true) stack, validElem s := by
  induction elems generalizing stack with
  | nil => simpa using hs
  | cons e es ih =>
    simp only [List.foldl_cons]
    exact ih _ (cleanStep_valid stack e hs (he e (List.mem_cons_self _ _)))
      (fun x hx => he x (List.mem_cons_of_mem _ hx))

theorem cleanAbsolute_form (p : GoString) (h : cleanAbsolute p) :
    ∃ segs, (∀ s ∈ segs, validElem s) ∧ p = absPath segs := by
  obtain ⟨hc, hr⟩ := h
  have hne : p ≠ [] := by rintro rfl; simp at hr
  refine ⟨(p.splitOn slash).foldl (cleanStep true) [], ?_, ?_⟩
  · exact foldl_cleanStep_valid _ _ (by simp) (not_mem_of_mem_splitOn slash p)
  · have hcl : Clean p = slash :: [slash].intercalate
        ((p.splitOn slash).foldl (cleanStep true) []) := by
      simp [Clean, hne, hr]
    rw [absPath, ← hcl, hc]

theorem cleanStep_of_valid (rooted : Bool) (stack : List GoString) (e : GoString)
    (he : validElem e) : cleanStep rooted stack e = stack ++ [e] := by
  unfold cleanStep
  have h1 : ¬ (e = [] ∨ e = dotElem) := by
    rintro (h | h)
    · exact he.1 h
    · exact he.2.1 h
  rw [if_neg h1, if_neg he.2.2.1]

theorem foldl_cleanStep_of_valid (rooted : Bool) (segs stack : List GoString)
    (h : ∀ s ∈ segs, validElem s) :
    segs.foldl (cleanStep rooted) stack = stack ++ segs := by
  induction segs generalizing stack with
  | nil => simp
  | cons e es ih =>
    simp only [List.foldl_cons]
    rw [cleanStep_of_valid rooted stack e (h e (List.mem_cons_self _ _)),
      ih _ (fun x hx => h x (List.mem_cons_of_mem _ hx))]
    simp

theorem intercalate_cons_cons (sep a b : GoString) (l : List GoString) :
    sep.intercalate (a :: b :: l) = a ++ sep ++ sep.intercalate (b :: l) := by
  simp [List.intercalate, List.intersperse]

theorem intercalate_append_singleton (sep last : GoString) (init : List GoString)
    (h : init ≠ []) :
    sep.intercalate (init ++ [last]) = sep.intercalate init ++ sep ++ last := by
  induction init with
  | nil => exact absurd rfl h
  | cons a as ih =>
    cases as with
    | nil => simp [List.intercalate, List.intersperse]
    | cons b bs =>
      have := ih (by simp)
      rw [List.cons_append, List.cons_append, intercalate_cons_cons, ← List.cons_append, this,
        intercalate_cons_cons]
      simp [List.append_assoc]

theorem absPath_eq_intercalate (segs : List GoString) (h : segs ≠ []) :
    absPath segs = [slash].intercalate ([] :: segs) := by
  cases segs with
  | nil => exact absurd rfl h
  | cons b l => rw [intercalate_cons_cons]; rfl

theorem validElem_no_slash {segs : List GoString} (h : ∀ s ∈ segs, validElem s) :
    ∀ s ∈ segs, slash ∉ s := fun s hs => (h s hs).2.2.2

theorem cleanStep_nil (rooted : Bool) (stack : List GoString) :
    cleanStep rooted stack [] = stack := by
  simp [cleanStep]

theorem Clean_absPath (segs : List GoString) (h : ∀ s ∈ segs, validElem s) :
    Clean (absPath segs) = absPath segs := by
  by_cases hs : segs = []
  · subst hs; decide
  · have hsp : (absPath segs).splitOn slash = [] :: segs := by
      rw [absPath_eq_intercalate segs hs]
      apply List.splitOn_intercalate
      · intro l hl
        rcases List.mem_cons.1 hl with rfl | hl
        · simp
        · exact validElem_no_slash h l hl
      · simp
    have hne : absPath segs ≠ [] := by simp [absPath]
    have hr : (absPath segs).head? = some slash := by simp [absPath]
    simp only [Clean, if_neg hne, hr, hsp, List.foldl_cons, cleanStep_nil, if_true]
    rw [foldl_cleanStep_of_valid _ _ _ h]
    simp [absPath]

theorem Clean_absPath_slash (segs : List GoString) (h : ∀ s ∈ segs, validElem s)
    (hs : segs ≠ []) : Clean (absPath segs ++ [slash]) = absPath segs := by
  have hform : absPath segs ++ [slash] = [slash].intercalate ([] :: (segs ++ [[]])) := by
    rw [← List.cons_append, intercalate_append_singleton _ _ _ (by simp),
      ← absPath_eq_intercalate segs hs]
    simp
  have hsp : (absPath segs ++ [slash]).splitOn slash = [] :: (segs ++ [[]]) := by
    rw [hform]
    apply List.splitOn_intercalate
    · intro l hl
      rcases List.mem_cons.1 hl with rfl | hl
      · simp
      · rcases List.mem_append.1 hl with hl | hl
        · exact validElem_no_slash h l hl
        · simp only [List.mem_singleton] at hl; subst hl; simp
    · simp
  have hne : absPath segs ++ [slash] ≠ [] := by simp
  have hr : (absPath segs ++ [slash]).head? = some slash := by simp [absPath]
  simp only [Clean, if_neg hne, hr, hsp, List.foldl_cons, cleanStep_nil, if_true,
    List.foldl_append, List.foldl_nil]
  rw [foldl_cleanStep_of_valid _ _ _ h]
  simp [absPath]

theorem lastIndexByte_of_not_mem (b : GoString) (c : Char) (h : c ∉ b) :
    lastIndexByte b c = -1 := by
  induction b with
  | nil => rfl
  | cons x xs ih =>
    simp only [List.mem_cons, not_or] at h
    simp only [lastIndexByte, ih h.2]
    simp [Ne.symm h.1]

theorem lastIndexByte_append (a b : GoString) (c : Char) (h : c ∉ b) :
    lastIndexByte (a ++ c :: b) c = a.length := by
  induction a with
  | nil =>
    simp only [List.nil_append, lastIndexByte, lastIndexByte_of_not_mem b c h]
    simp
  | cons x xs ih =>
    have e : lastIndexByte (x :: (xs ++ c :: b)) c =
        (if 0 ≤ lastIndexByte (xs ++ c :: b) c then lastIndexByte (xs ++ c :: b) c + 1
          else if x = c then 0 else -1) := rfl
    rw [List.cons_append, e, ih]
    simp

theorem Split_append (a b : GoString) (h : slash ∉ b) :
    Split (a ++ slash :: b) = (a ++ [slash], b) := by
  have e1 : ((a.length : Int) + 1).toNat = a.length + 1 := by
    rw [show ((a.length : Int) + 1) = ((a.length + 1 : Nat) : Int) by push_cast; rfl]
    exact Int.toNat_natCast _
  simp only [Split, lastIndexByte_append a b slash h, e1]
  have e2 : a ++ slash :: b = (a ++ [slash]) ++ b := by simp
  rw [e2]
  have e3 : a.length + 1 = (a ++ [slash]).length := by simp
  rw [e3, List.take_left', List.drop_left']
  all_goals rfl

theorem Split_of_not_mem (b : GoString) (h : slash ∉ b) : Split b = ([], b) := by
  simp [Split, lastIndexByte_of_not_mem b slash h]

theorem absPath_concat (init : List GoString) (last : GoString) :
    absPath (init ++ [last]) =
      (if init = [] then [slash] else absPath init ++ [slash]) ++ last := by
  by_cases h : init = []
  · subst h; simp [absPath, List.intercalate]
  · rw [if_neg h, absPath, intercalate_append_singleton _ _ _ h]
    simp [absPath]

theorem absPath_length (segs : List GoString) (h : ∀ s ∈ segs, validElem s) (hs : segs ≠ []) :
    1 < (absPath segs).length := by
  cases segs with
  | nil => exact absurd rfl hs
  | cons a l =>
    have ha : a ≠ [] := (h a (List.mem_cons_self _ _)).1
    have hpos : 0 < a.length := List.length_pos.2 ha
    cases l with
    | nil => simp [absPath, List.intercalate]; omega
    | cons b l' =>
      rw [absPath, intercalate_cons_cons]
      simp only [List.length_cons, List.length_append]
      omega

theorem getDirPath_absPath (segs : List GoString) (h : ∀ s ∈ segs, validElem s) :
    getDirPath (absPath segs) = if segs = [] then [slash] else absPath segs ++ [slash] := by
  by_cases hs : segs = []
  · subst hs; decide
  · rw [if_neg hs]
    simp only [getDirPath, Clean_absPath segs h]
    rw [if_pos (absPath_length segs h hs)]

theorem getDirPath_Dir_absPath (segs : List GoString) (h : ∀ s ∈ segs, validElem s) :
    getDirPath (Dir (absPath segs)) = (Split (absPath segs)).1 := by
  rcases List.eq_nil_or_concat segs with hs | ⟨init, last, hs⟩
  · subst hs; decide
  · subst hs
    have hinit : ∀ s ∈ init, validElem s := fun s hs => h s (by simp [hs])
    have hlast : slash ∉ last := (h last (by simp)).2.2.2
    rw [List.concat_eq_append, absPath_concat]
    by_cases hi : init = []
    · subst hi
      simp only [if_true]
      have e : Split ([slash] ++ last) = ([slash], last) := by
        have := Split_append [] last hlast
        simpa using this
      simp only [Dir, e]
      decide
    · simp only [if_neg hi]
      have e : Split (absPath init ++ [slash] ++ last) = (absPath init ++ [slash], last) := by
        have := Split_append (absPath init) last hlast
        simpa using this
      simp only [Dir, e, Clean_absPath_slash init hinit hi]
      rw [getDirPath_absPath init hinit, if_neg hi]

theorem getDirPath_Dir_of_clean (p : GoString) (h : cleanAbsolute p) :
    getDirPath (Dir p) = (Split p).1 := by
  obtain ⟨segs, hv, rfl⟩ := cleanAbsolute_form p h
  exact getDirPath_Dir_absPath segs hv

theorem last_slash_decomp (p : GoString) (h : slash ∈ p) :
    ∃ a b, p = a ++ slash :: b ∧ slash ∉ b := by
  induction p with
  | nil => simp at h
  | cons x xs ih =>
    by_cases hx : slash ∈ xs
    · obtain ⟨a, b, e, hb⟩ := ih hx
      exact ⟨x :: a, b, by simp [e], hb⟩
    · rcases List.mem_cons.1 h with h1 | h1
      · exact ⟨[], xs, by simp [h1], hx⟩
      · exact absurd h1 hx

theorem insidePath_iff (d p : GoString) :
    insidePath d p = true ↔ ∃ r, p = d ++ r ∧ r ≠ [] ∧ slash ∉ r := by
  unfold insidePath hasPrefix containsSlash
  constructor
  · intro h
    by_cases hp : d.isPrefixOf p = true
    · obtain ⟨r, rfl⟩ := List.isPrefixOf_iff_prefix.1 hp
      refine ⟨r, rfl, ?_, ?_⟩
      · rintro rfl; simp at h
      · intro hm
        simp [hm] at h
    · simp [hp] at h
  · rintro ⟨r, rfl, hr, hs⟩
    simp [hs]
    exact hr

theorem insidePath_common (d p q : GoString) (hp : cleanAbsolute p)
    (h1 : insidePath d p = true) (h2 : insidePath d q = true) :
    insidePath (getDirPath (Dir p)) q = true := by
  rw [getDirPath_Dir_of_clean p hp]
  obtain ⟨r, rfl, hr, hs⟩ := (insidePath_iff d p).1 h1
  obtain ⟨r', rfl, hr', hs'⟩ := (insidePath_iff d q).1 h2
  have hd : slash ∈ d := by
    have hh := hp.2
    cases d with
    | nil =>
      cases r with
      | nil => exact absurd rfl hr
      | cons x xs =>
        simp at hh
        subst hh
        exact absurd (List.mem_cons_self _ _) hs
    | cons x xs =>
      simp at hh
      subst hh
      exact List.mem_cons_self _ _
  obtain ⟨a, b, rfl, hb⟩ := last_slash_decomp d hd
  have e : Split (a ++ slash :: b ++ r) = (a ++ [slash], b ++ r) := by
    have := Split_append a (b ++ r) (by simp [hb, hs])
    simpa using this
  rw [e]
  refine (insidePath_iff _ _).2 ⟨b ++ r', by simp, ?_, by simp [hb, hs']⟩
  simp [hr']

theorem insidePath_self (p : GoString) (hp : cleanAbsolute p) (hne : p ≠ [slash]) :
    insidePath (getDirPath (Dir p)) p = true := by
  rw [getDirPath_Dir_of_clean p hp]
  obtain ⟨segs, hv, rfl⟩ := cleanAbsolute_form p hp
  rcases List.eq_nil_or_concat segs with hs | ⟨init, last, hs⟩
  · subst hs; exact absurd rfl hne
  · subst hs
    have hlast : validElem last := hv last (by simp)
    rw [List.concat_eq_append, absPath_concat]
    have e : ∀ x : GoString, Split (x ++ [slash] ++ last) = (x ++ [slash], last) := by
      intro x
      have := Split_append x last hlast.2.2.2
      simpa using this
    by_cases hi : init = []
    · simp only [if_pos hi]
      have e0 := e []
      simp only [List.nil_append] at e0
      rw [e0]
      exact (insidePath_iff _ _).2 ⟨last, rfl, hlast.1, hlast.2.2.2⟩
    · simp only [if_neg hi]
      rw [e]
      exact (insidePath_iff _ _).2 ⟨last, rfl, hlast.1, hlast.2.2.2⟩

/-! ## The file registry -/

theorem find_filter_of_imp {α : Type} (items : List α) (keep test : α → Bool)
    (h : ∀ x, test x = true → keep x = true) :
    (items.filter keep).find? test = items.find? test := by
  induction items with
  | nil => rfl
  | cons it rest ih =>
    cases hk : keep it with
    | true =>
      rw [List.filter_cons_of_pos hk, List.find?_cons, List.find?_cons, ih]
    | false =>
      have ht : test it = false := by
        cases ht : test it with
        | false => rfl
        | true => rw [h it ht] at hk; exact absurd hk (by simp)
      rw [List.filter_cons_of_neg (by simp [hk]), List.find?_cons, ht, ih]

theorem Get_filter_of_keep (items : List (GoString × VirtualFile)) (keep : GoString → Bool)
    (q : GoString) (hq : keep q = true) :
    (FileList.mk (items.filter (fun it => keep it.1))).Get q = (FileList.mk items).Get q := by
  simp only [FileList.Get]
  rw [find_filter_of_imp]
  intro x hx
  have : x.1 = q := by simpa using hx
  rw [this]; exact hq

theorem Get_eq_none_iff (fl : FileList) (q : GoString) :
    fl.Get q = none ↔ ∀ it ∈ fl.items, it.1 ≠ q := by
  unfold FileList.Get
  rw [Option.map_eq_none', List.find?_eq_none]
  constructor
  · intro h it hit; simpa using h it hit
  · intro h it hit; simpa using h it hit

theorem Get_Delete (fl : FileList) (p q : GoString) :
    (fl.Delete p).Get q = if q = p then none else fl.Get q := by
  by_cases hq : q = p
  · rw [if_pos hq, Get_eq_none_iff]
    intro it hit
    have := (List.mem_filter.1 hit).2
    subst hq
    simpa using this
  · rw [if_neg hq]
    have := Get_filter_of_keep fl.items (fun k => decide (k ≠ p)) q (by simpa using hq)
    exact this

theorem Get_append_of_none (items : List (GoString × VirtualFile)) (p q : GoString)
    (f : VirtualFile) (h : (FileList.mk items).Get p = none) :
    (FileList.mk (items ++ [(p, f)])).Get q =
      if q = p then some f else (FileList.mk items).Get q := by
  have hn := (Get_eq_none_iff _ _).1 h
  unfold FileList.Get
  rw [List.find?_append]
  by_cases hq : q = p
  · subst hq
    have e : List.find? (fun it => decide (it.1 = q)) items = none := by
      rw [List.find?_eq_none]
      intro it hit; simpa using hn it hit
    rw [if_pos rfl, e]
    simp
  · rw [if_neg hq]
    cases hf : List.find? (fun it => decide (it.1 = q)) items with
    | none => simp [List.find?_cons, Ne.symm hq]
    | some x => simp

theorem Get_Create (fl : FileList) (p q : GoString) (f : VirtualFile) :
    (fl.Create p f).Get q =
      if q = p then some ((fl.Get p).getD f) else fl.Get q := by
  unfold FileList.Create
  cases h : fl.Get p with
  | some g =>
    by_cases hq : q = p
    · subst hq; simp [h]
    · simp [hq]
  | none =>
    simp only
    rw [Get_append_of_none fl.items p q f h]
    simp

theorem retentionLoop_items (len : Nat) (rest : List VirtualFile) (i : Nat) (files : FileList) :
    (retentionLoop len i rest files).items =
      files.items.filter (fun it => decide (it.1 ∉ (rest.take (len - 4 - i)).map
        VirtualFile.filePath)) := by
  induction rest generalizing i files with
  | nil => simp [retentionLoop]
  | cons f rest ih =>
    unfold retentionLoop
    by_cases hg : (i : Int) ≤ (len : Int) - 5
    · rw [if_pos hg, ih]
      have e : len - 4 - i = (len - 4 - (i + 1)) + 1 := by omega
      rw [e, List.take_succ_cons]
      simp only [FileList.Delete, List.filter_filter, List.map_cons, List.mem_cons, not_or]
      congr 1
      funext it
      by_cases h : it.1 = f.filePath <;> simp [h]
    · rw [if_neg hg]
      have e : len - 4 - i = 0 := by omega
      rw [e]
      simp

theorem pathRetention_items (vfs : VirtualFileSystem) (d : GoString) :
    (vfs.pathRetention d).files.items =
      vfs.files.items.filter (fun it => decide (it.1 ∉ swept vfs.files d)) := by
  simp only [VirtualFileSystem.pathRetention, retentionLoop_items, swept, Nat.sub_zero]

theorem pathRetention_directories (vfs : VirtualFileSystem) (d : GoString) :
    (vfs.pathRetention d).directories = vfs.directories := rfl

/-! ## Flags -/

theorem or_create_and_append (flag : Nat) :
    (flag ||| O_CREATE) &&& O_APPEND = flag &&& O_APPEND := by
  rw [Nat.and_distrib_right]
  have : O_CREATE &&& O_APPEND = 0 := by decide
  rw [this, Nat.or_zero]

theorem or_create_and_create (flag : Nat) : (flag ||| O_CREATE) &&& O_CREATE ≠ 0 := by
  intro h
  have h6 := congrArg (fun n => Nat.testBit n 6) h
  have e : Nat.testBit O_CREATE 6 = true := by decide
  simp [e] at h6

/-! ## `OpenFile`, step by step -/

theorem OpenFile_files (vfs : VirtualFileSystem) (device : Device) (p : GoString)
    (flag now : Nat) :
    (OpenFile vfs device p flag now).1.files =
      openFiles (vfs.pathRetention (getDirPath (Dir p))).files device p flag now := by
  unfold OpenFile openFiles
  by_cases hw : flag &&& O_WRONLY ≠ 0
  · by_cases ha : flag &&& O_APPEND = 0
    · have ha' : (flag ||| O_CREATE) &&& O_APPEND = 0 := by rw [or_create_and_append]; exact ha
      simp only [if_pos hw, if_pos ha', if_pos (or_create_and_create flag), if_pos ha,
        if_pos (Or.inl hw : flag &&& O_WRONLY ≠ 0 ∨ flag &&& O_CREATE ≠ 0)]
    · have ha' : ¬ (flag ||| O_CREATE) &&& O_APPEND = 0 := by rw [or_create_and_append]; exact ha
      simp only [if_pos hw, if_neg ha', if_pos (or_create_and_create flag), if_neg ha,
        if_pos (Or.inl hw : flag &&& O_WRONLY ≠ 0 ∨ flag &&& O_CREATE ≠ 0)]
  · by_cases hc : flag &&& O_CREATE ≠ 0
    · simp only [if_neg hw, if_pos hc,
        if_pos (Or.inr hc : flag &&& O_WRONLY ≠ 0 ∨ flag &&& O_CREATE ≠ 0)]
    · have hn : ¬ (flag &&& O_WRONLY ≠ 0 ∨ flag &&& O_CREATE ≠ 0) := by
        rintro (h | h)
        · exact hw h
        · exact hc h
      simp only [if_neg hw, if_neg hc, if_neg hn]

theorem OpenFile_directories (vfs : VirtualFileSystem) (device : Device) (p : GoString)
    (flag now : Nat) :
    (OpenFile vfs device p flag now).1.directories = vfs.directories := rfl

theorem OpenFile_result (vfs : VirtualFileSystem) (device : Device) (p : GoString)
    (flag now : Nat) :
    (OpenFile vfs device p flag now).2 =
      match (OpenFile vfs device p flag now).1.files.Get p with
      | none => .error .ErrNotExist
      | some file => .ok file := rfl

/-! ## The representation invariant -/

theorem WF_filter (items : List (GoString × VirtualFile)) (keep : GoString × VirtualFile → Bool)
    (h : (FileList.mk items).WF) : (FileList.mk (items.filter keep)).WF := by
  obtain ⟨h1, h2⟩ := h
  refine ⟨?_, fun it hit => h2 it (List.mem_of_mem_filter hit)⟩
  exact List.Nodup.sublist ((List.filter_sublist items).map Prod.fst) h1

theorem WF_Delete (fl : FileList) (p : GoString) (h : fl.WF) : (fl.Delete p).WF :=
  WF_filter fl.items _ h

theorem WF_Create (fl : FileList) (p : GoString) (f : VirtualFile) (hf : f.filePath = p)
    (h : fl.WF) : (fl.Create p f).WF := by
  unfold FileList.Create
  cases hg : fl.Get p with
  | some g => exact h
  | none =>
    obtain ⟨h1, h2⟩ := h
    have hn := (Get_eq_none_iff fl p).1 hg
    constructor
    · simp only [List.map_append, List.map_cons, List.map_nil]
      rw [List.nodup_append]
      refine ⟨h1, List.nodup_singleton _, ?_⟩
      intro k hk hk'
      simp only [List.mem_singleton] at hk'
      subst hk'
      obtain ⟨it, hit, e⟩ := List.mem_map.1 hk
      exact hn it hit e
    · intro it hit
      rcases List.mem_append.1 hit with hit | hit
      · exact h2 it hit
      · simp only [List.mem_singleton] at hit
        subst hit
        exact hf

theorem WF_pathRetention (vfs : VirtualFileSystem) (d : GoString) (h : vfs.files.WF) :
    (vfs.pathRetention d).files.WF := by
  have e : (vfs.pathRetention d).files = ⟨(vfs.pathRetention d).files.items⟩ := rfl
  rw [e, pathRetention_items]
  exact WF_filter _ _ h

theorem WF_openFiles (files : FileList) (device : Device) (p : GoString) (flag now : Nat)
    (h : files.WF) : (openFiles files device p flag now).WF := by
  unfold openFiles
  have hd : (if flag &&& O_WRONLY ≠ 0 then
      if flag &&& O_APPEND = 0 then files.Delete p else files else files).WF := by
    split_ifs
    · exact WF_Delete _ _ h
    · exact h
    · exact h
  simp only
  split_ifs
  all_goals first | exact WF_Create _ _ _ rfl (WF_Delete _ _ h) | exact WF_Create _ _ _ rfl h | exact WF_Delete _ _ h | exact h

theorem WF_OpenFile (vfs : VirtualFileSystem) (device : Device) (p : GoString) (flag now : Nat)
    (h : vfs.files.WF) : (OpenFile vfs device p flag now).1.files.WF := by
  rw [OpenFile_files]
  exact WF_openFiles _ _ _ _ _ (WF_pathRetention _ _ h)

theorem WF_runOpenFiles (calls : List OpenCall) (vfs : VirtualFileSystem) (h : vfs.files.WF) :
    (runOpenFiles vfs calls).files.WF := by
  induction calls generalizing vfs with
  | nil => exact h
  | cons c cs ih =>
    simp only [runOpenFiles, List.foldl_cons]
    exact ih _ (WF_OpenFile _ _ _ _ _ h)

theorem WF_New : NewVirtualFileSystem.files.WF := by decide

/-! ## What the sweep leaves -/

theorem filter_take_eq_drop {α β : Type} (f : α → β) (L : List α)
    (hn : (L.map f).Nodup) (m : Nat) (q : α → Bool)
    (hq : ∀ x, q x = true ↔ f x ∉ (L.take m).map f) :
    L.filter q = L.drop m := by
  classical
  induction L generalizing m q with
  | nil => simp
  | cons a l ih =>
    cases m with
    | zero =>
      rw [List.drop_zero, List.filter_eq_self]
      intro x _
      exact (hq x).2 (by simp)
    | succ m =>
      rw [List.map_cons] at hn
      obtain ⟨ha, hl⟩ := List.nodup_cons.1 hn
      have hqa : ¬ q a = true := by
        rw [hq a]; simp
      rw [List.drop_succ_cons, List.filter_cons_of_neg hqa]
      rw [← ih hl m (fun x => decide (f x ∉ (l.take m).map f)) (by
        intro x; simp)]
      apply List.filter_congr
      intro x hx
      have hne : f x ≠ f a := by
        intro e
        exact ha (e ▸ List.mem_map_of_mem f hx)
      have h1 := hq x
      rw [List.take_succ_cons, List.map_cons, List.mem_cons, not_or] at h1
      by_cases hx' : f x ∈ (l.take m).map f
      · have : ¬ q x = true := fun hh => (h1.1 hh).2 hx'
        simp only [this, decide_not, hx', decide_True, Bool.not_true]
      · have : q x = true := h1.2 ⟨hne, hx'⟩
        simp only [this, decide_not, hx', decide_False, Bool.not_false]

theorem mem_getFilesInsidePath (fl : FileList) (d : GoString) (f : VirtualFile) :
    f ∈ fl.getFilesInsidePath d ↔ ∃ k, (k, f) ∈ fl.items ∧ insidePath d k = true := by
  unfold FileList.getFilesInsidePath sortByCreated FileList.Iterate
  rw [List.mem_insertionSort, List.mem_map]
  constructor
  · rintro ⟨it, hit, rfl⟩
    obtain ⟨h1, h2⟩ := List.mem_filter.1 hit
    exact ⟨it.1, h1, h2⟩
  · rintro ⟨k, h1, h2⟩
    exact ⟨(k, f), List.mem_filter.2 ⟨h1, h2⟩, rfl⟩

theorem insideFiles_paths (fl : FileList) (d : GoString) (h : fl.WF) :
    ((fl.items.filter (fun it => insidePath d it.1)).map Prod.snd).map VirtualFile.filePath =
      (fl.items.filter (fun it => insidePath d it.1)).map Prod.fst := by
  rw [List.map_map]
  apply List.map_congr_left
  intro it hit
  exact h.2 it (List.mem_of_mem_filter hit)

theorem nodup_insideFiles_paths (fl : FileList) (d : GoString) (h : fl.WF) :
    (((fl.items.filter (fun it => insidePath d it.1)).map Prod.snd).map
      VirtualFile.filePath).Nodup := by
  rw [insideFiles_paths fl d h]
  exact List.Nodup.sublist ((List.filter_sublist _).map Prod.fst) h.1

theorem getFilesInsidePath_perm (fl : FileList) (d : GoString) :
    (fl.getFilesInsidePath d).Perm
      ((fl.items.filter (fun it => insidePath d it.1)).map Prod.snd) :=
  List.perm_insertionSort _ _

theorem nodup_getFilesInsidePath_paths (fl : FileList) (d : GoString) (h : fl.WF) :
    ((fl.getFilesInsidePath d).map VirtualFile.filePath).Nodup :=
  ((getFilesInsidePath_perm fl d).map _).nodup_iff.2 (nodup_insideFiles_paths fl d h)

theorem length_getFilesInsidePath (fl : FileList) (d : GoString) :
    (fl.getFilesInsidePath d).length = (fl.items.filter (fun it => insidePath d it.1)).length := by
  rw [(getFilesInsidePath_perm fl d).length_eq, List.length_map]

/-- The files directly inside `d` after the sweep of `d`, up to their order in
the registry: the files that were inside `d`, in creation order, without all
but the last four. -/
theorem insideFiles_pathRetention_perm (vfs : VirtualFileSystem) (d : GoString)
    (h : vfs.files.WF) :
    (((vfs.pathRetention d).files.items.filter (fun it => insidePath d it.1)).map Prod.snd).Perm
      ((vfs.files.getFilesInsidePath d).drop ((vfs.files.getFilesInsidePath d).length - 4)) := by
  rw [pathRetention_items, List.filter_comm]
  have e1 : ((vfs.files.items.filter (fun it => insidePath d it.1)).filter
      (fun it => decide (it.1 ∉ swept vfs.files d))).map Prod.snd =
      ((vfs.files.items.filter (fun it => insidePath d it.1)).map Prod.snd).filter
        (fun f => decide (f.filePath ∉ swept vfs.files d)) := by
    rw [List.filter_map]
    congr 1
    apply List.filter_congr
    intro it hit
    simp only [Function.comp]
    rw [h.2 it (List.mem_of_mem_filter hit)]
  rw [e1]
  refine ((getFilesInsidePath_perm vfs.files d).symm.filter _).trans ?_
  unfold swept
  rw [filter_take_eq_drop VirtualFile.filePath _ (nodup_getFilesInsidePath_paths _ d h)
    ((vfs.files.getFilesInsidePath d).length - 4) _ (fun x => by simp)]

theorem length_inside_pathRetention (vfs : VirtualFileSystem) (d : GoString)
    (h : vfs.files.WF) :
    ((vfs.pathRetention d).files.items.filter (fun it => insidePath d it.1)).length ≤ 4 := by
  have := (insideFiles_pathRetention_perm vfs d h).length_eq
  rw [List.length_map, List.length_drop] at this
  omega

/-! ## Counting the files inside a directory -/

theorem Create_items (fl : FileList) (p : GoString) (f : VirtualFile) :
    (fl.Create p f).items = fl.items ∨ (fl.Create p f).items = fl.items ++ [(p, f)] := by
  unfold FileList.Create
  cases fl.Get p with
  | some g => exact Or.inl rfl
  | none => exact Or.inr rfl

theorem openFiles_items (files : FileList) (device : Device) (p : GoString) (flag now : Nat) :
    ∃ base : List (GoString × VirtualFile), base.Sublist files.items ∧
      ((openFiles files device p flag now).items = base ∨
        (openFiles files device p flag now).items =
          base ++ [(p, newVirtualFile device p now)]) := by
  unfold openFiles
  simp only
  by_cases hw : flag &&& O_WRONLY ≠ 0
  · have hwc : flag &&& O_WRONLY ≠ 0 ∨ flag &&& O_CREATE ≠ 0 := Or.inl hw
    rw [if_pos hw, if_pos hwc]
    by_cases ha : flag &&& O_APPEND = 0
    · rw [if_pos ha]
      exact ⟨(files.Delete p).items, List.filter_sublist _, Create_items _ _ _⟩
    · rw [if_neg ha]
      exact ⟨files.items, List.Sublist.refl _, Create_items _ _ _⟩
  · rw [if_neg hw]
    by_cases hwc : flag &&& O_WRONLY ≠ 0 ∨ flag &&& O_CREATE ≠ 0
    · rw [if_pos hwc]
      exact ⟨files.items, List.Sublist.refl _, Create_items _ _ _⟩
    · rw [if_neg hwc]
      exact ⟨files.items, List.Sublist.refl _, Or.inl rfl⟩

theorem count_inside_OpenFile (vfs : VirtualFileSystem) (device : Device) (p : GoString)
    (flag now : Nat) (hwf : vfs.files.WF) (hp : cleanAbsolute p)
    (h5 : ∀ d, (vfs.files.getFilesInsidePath d).length ≤ 5) (d : GoString) :
    ((OpenFile vfs device p flag now).1.files.getFilesInsidePath d).length ≤ 5 := by
  rw [length_getFilesInsidePath, OpenFile_files]
  obtain ⟨base, hsub, hitems⟩ :=
    openFiles_items (vfs.pathRetention (getDirPath (Dir p))).files device p flag now
  have hsub0 : base.Sublist vfs.files.items := by
    refine hsub.trans ?_
    rw [pathRetention_items]
    exact List.filter_sublist _
  have hbase0 : (base.filter (fun it => insidePath d it.1)).length ≤ 5 := by
    have := (hsub0.filter (fun it => insidePath d it.1)).length_le
    have h5d := h5 d
    rw [length_getFilesInsidePath] at h5d
    omega
  rcases hitems with e | e
  · rw [e]; exact hbase0
  · rw [e, List.filter_append, List.length_append]
    by_cases hin : insidePath d p = true
    · have h4 := length_inside_pathRetention vfs (getDirPath (Dir p)) hwf
      have hmono : (base.filter (fun it => insidePath d it.1)).length ≤
          ((vfs.pathRetention (getDirPath (Dir p))).files.items.filter
            (fun it => insidePath (getDirPath (Dir p)) it.1)).length := by
        refine ((hsub.filter _).length_le).trans ?_
        apply List.Sublist.length_le
        apply List.monotone_filter_right
        intro it hit
        exact insidePath_common d p it.1 hp hin hit
      have h1 : ([(p, newVirtualFile device p now)].filter
          (fun it => insidePath d it.1)).length ≤ 1 :=
        (List.length_filter_le _ _).trans (by simp)
      omega
    · have h0 : [(p, newVirtualFile device p now)].filter
          (fun it => insidePath d it.1) = [] := by
        simp [List.filter_cons, hin]
      rw [h0]
      simpa using hbase0

theorem count_inside_runOpenFiles (calls : List OpenCall) (vfs : VirtualFileSystem)
    (hwf : vfs.files.WF) (h5 : ∀ d, (vfs.files.getFilesInsidePath d).length ≤ 5)
    (hc : ∀ c ∈ calls, cleanAbsolute c.filePath) (d : GoString) :
    ((runOpenFiles vfs calls).files.getFilesInsidePath d).length ≤ 5 := by
  induction calls generalizing vfs with
  | nil => exact h5 d
  | cons c cs ih =>
    simp only [runOpenFiles, List.foldl_cons]
    exact ih _ (WF_OpenFile _ _ _ _ _ hwf)
      (count_inside_OpenFile vfs _ _ _ _ hwf (hc c (List.mem_cons_self _ _)) h5)
      (fun c' hc' => hc c' (List.mem_cons_of_mem _ hc'))

/-! ## What `OpenFile` leaves alone -/

theorem swept_inside (fl : FileList) (d k : GoString) (h : fl.WF) (hk : k ∈ swept fl d) :
    insidePath d k = true := by
  unfold swept at hk
  obtain ⟨f, hf, rfl⟩ := List.mem_map.1 hk
  obtain ⟨k', hk', hin⟩ := (mem_getFilesInsidePath fl d f).1 (List.mem_of_mem_take hf)
  have := h.2 _ hk'
  simp only at this
  rw [this]; exact hin

theorem Get_pathRetention_of_not_swept (vfs : VirtualFileSystem) (d q : GoString)
    (hq : q ∉ swept vfs.files d) :
    (vfs.pathRetention d).files.Get q = vfs.files.Get q := by
  have e : (vfs.pathRetention d).files = ⟨(vfs.pathRetention d).files.items⟩ := rfl
  rw [e, pathRetention_items]
  exact Get_filter_of_keep vfs.files.items (fun k => decide (k ∉ swept vfs.files d)) q
    (by simpa using hq)

theorem Get_pathRetention_of_not_inside (vfs : VirtualFileSystem) (d q : GoString)
    (h : vfs.files.WF) (hq : insidePath d q = false) :
    (vfs.pathRetention d).files.Get q = vfs.files.Get q := by
  apply Get_pathRetention_of_not_swept
  intro hs
  rw [swept_inside _ _ _ h hs] at hq
  exact absurd hq (by simp)

theorem Get_openFiles_of_ne (files : FileList) (device : Device) (p q : GoString)
    (flag now : Nat) (hq : q ≠ p) :
    (openFiles files device p flag now).Get q = files.Get q := by
  unfold openFiles
  simp only
  split_ifs <;> simp only [Get_Create, Get_Delete, if_neg hq]

theorem Get_OpenFile_of_ne (vfs : VirtualFileSystem) (device : Device) (p q : GoString)
    (flag now : Nat) (h : vfs.files.WF) (hq : q ≠ p)
    (hin : insidePath (getDirPath (Dir p)) q = false) :
    (OpenFile vfs device p flag now).1.files.Get q = vfs.files.Get q := by
  rw [OpenFile_files, Get_openFiles_of_ne _ _ _ _ _ _ hq,
    Get_pathRetention_of_not_inside _ _ _ h hin]

theorem Get_openFiles_self_none (files : FileList) (device : Device) (p : GoString)
    (flag now : Nat) (h : (openFiles files device p flag now).Get p = none) :
    files.Get p = none := by
  unfold openFiles at h
  simp only at h
  by_cases hwc : flag &&& O_WRONLY ≠ 0 ∨ flag &&& O_CREATE ≠ 0
  · rw [if_pos hwc, Get_Create, if_pos rfl] at h
    exact absurd h (by simp)
  · rw [if_neg hwc] at h
    have hw : ¬ flag &&& O_WRONLY ≠ 0 := fun hh => hwc (Or.inl hh)
    rw [if_neg hw] at h
    exact h

theorem openFiles_paths_device (files : FileList) (A B : Device) (p : GoString)
    (flag now : Nat) :
    (openFiles files A p flag now).items.map Prod.fst =
      (openFiles files B p flag now).items.map Prod.fst := by
  have hc : ∀ (fl : FileList) (f g : VirtualFile),
      (fl.Create p f).items.map Prod.fst = (fl.Create p g).items.map Prod.fst := by
    intro fl f g
    unfold FileList.Create
    cases fl.Get p with
    | some x => rfl
    | none => simp
  unfold openFiles
  simp only
  split_ifs <;> first | rfl | exact hc _ _ _

theorem Get_openFiles_write (files : FileList) (device : Device) (p : GoString)
    (flag now : Nat) (hw : flag &&& O_WRONLY ≠ 0) (ha : flag &&& O_APPEND = 0) :
    openFiles files device p flag now =
      ⟨(files.Delete p).items ++ [(p, newVirtualFile device p now)]⟩ := by
  unfold openFiles
  simp only [if_pos hw, if_pos ha, if_pos (Or.inl hw : flag &&& O_WRONLY ≠ 0 ∨ _)]
  unfold FileList.Create
  have : (files.Delete p).Get p = none := by rw [Get_Delete, if_pos rfl]
  rw [this]

/-! ## Handles -/

theorem OpenFile_eq (vfs : VirtualFileSystem) (device : Device) (p : GoString)
    (flag now : Nat) :
    OpenFile vfs device p flag now =
      (⟨vfs.directories,
          openFiles (vfs.pathRetention (getDirPath (Dir p))).files device p flag now⟩,
        match (openFiles (vfs.pathRetention (getDirPath (Dir p))).files device p flag now).Get p
          with
        | none => .error .ErrNotExist
        | some file => .ok file) := by
  have h1 := OpenFile_files vfs device p flag now
  have h2 := OpenFile_result vfs device p flag now
  rw [h1] at h2
  apply Prod.ext
  · show (OpenFile vfs device p flag now).1 = _
    have : (OpenFile vfs device p flag now).1 =
        ⟨(OpenFile vfs device p flag now).1.directories,
          (OpenFile vfs device p flag now).1.files⟩ := rfl
    rw [this, h1, OpenFile_directories]
  · exact h2

theorem Get_modify (fl : FileList) (p q : GoString) (g : VirtualFile → VirtualFile) :
    (fl.modify p g).Get q = if q = p then (fl.Get p).map g else fl.Get q := by
  cases fl with
  | mk items =>
    simp only [FileList.modify, FileList.Get]
    induction items with
    | nil => simp
    | cons it rest ih =>
      by_cases hq : q = p
      · subst hq
        rw [if_pos rfl] at ih
        rw [if_pos rfl, List.map_cons, List.find?_cons, List.find?_cons]
        by_cases hk : it.1 = q
        · simp [hk]
        · simp only [hk, ↓reduceIte, decide_False]
          exact ih
      · rw [if_neg hq] at ih
        rw [if_neg hq, List.map_cons, List.find?_cons, List.find?_cons]
        by_cases hk : it.1 = p
        · have hkq : ¬ it.1 = q := fun e => hq (e.symm.trans hk)
          have hpq : ¬ p = q := fun e => hq e.symm
          simp only [hk, ↓reduceIte, hpq, decide_False]
          exact ih
        · simp only [hk, ↓reduceIte]
          by_cases hkq : it.1 = q
          · simp [hkq]
          · simp only [hkq, decide_False]
            exact ih

theorem Delete_of_Get_none (fl : FileList) (p : GoString) (h : fl.Get p = none) :
    fl.Delete p = fl := by
  cases fl with
  | mk items =>
    simp only [FileList.Delete, FileList.mk.injEq, List.filter_eq_self]
    intro it hit
    have := (Get_eq_none_iff _ _).1 h it hit
    simpa using this

theorem Get_pathRetention_of_none (vfs : VirtualFileSystem) (d p : GoString)
    (h : vfs.files.Get p = none) : (vfs.pathRetention d).files.Get p = none := by
  rw [Get_eq_none_iff]
  intro it hit
  rw [pathRetention_items] at hit
  exact (Get_eq_none_iff _ _).1 h it (List.mem_of_mem_filter hit)

theorem openFiles_of_Get_none (files : FileList) (device : Device) (p : GoString)
    (flag now : Nat) (hw : flag &&& O_WRONLY ≠ 0) (h : files.Get p = none) :
    openFiles files device p flag now = ⟨files.items ++ [(p, newVirtualFile device p now)]⟩ := by
  unfold openFiles
  simp only [if_pos hw, if_pos (Or.inl hw : flag &&& O_WRONLY ≠ 0 ∨ _)]
  have : (if flag &&& O_APPEND = 0 then files.Delete p else files) = files := by
    split_ifs
    · exact Delete_of_Get_none files p h
    · rfl
  rw [this]
  unfold FileList.Create
  rw [h]

/-- An append-open of a path at which no file is stored stores and returns a new
empty record, as a write-open without append does. -/
theorem OpenFile_append_without_file (vfs : VirtualFileSystem) (device : Device)
    (p : GoString) (flag flag' now : Nat) (hw : flag &&& O_WRONLY ≠ 0)
    (hw' : flag' &&& O_WRONLY ≠ 0) (hn : vfs.files.Get p = none) :
    (OpenFile vfs device p flag now).2 = .ok (newVirtualFile device p now) ∧
      (OpenFile vfs device p flag now).1.files.Get p = some (newVirtualFile device p now) ∧
      OpenFile vfs device p flag now = OpenFile vfs device p flag' now := by
  have hn1 := Get_pathRetention_of_none vfs (getDirPath (Dir p)) p hn
  have hfiles := openFiles_of_Get_none _ device p flag now hw hn1
  have hget : (OpenFile vfs device p flag now).1.files.Get p =
      some (newVirtualFile device p now) := by
    rw [OpenFile_files, hfiles]
    exact (Get_append_of_none (vfs.pathRetention (getDirPath (Dir p))).files.items p p _
      hn1).trans (if_pos rfl)
  refine ⟨by rw [OpenFile_result, hget], hget, ?_⟩
  rw [OpenFile_eq, OpenFile_eq vfs device p flag', hfiles,
    openFiles_of_Get_none _ device p flag' now hw' hn1]

/-! ## The newest file survives the sweep -/

theorem Get_of_mem_nodup (items : List (GoString × VirtualFile)) (k : GoString)
    (g : VirtualFile) (hnd : (items.map Prod.fst).Nodup) (hm : (k, g) ∈ items) :
    (FileList.mk items).Get k = some g := by
  simp only [FileList.Get]
  induction items with
  | nil => simp at hm
  | cons it rest ih =>
    rw [List.map_cons] at hnd
    obtain ⟨hnot, hrest⟩ := List.nodup_cons.1 hnd
    rw [List.find?_cons]
    by_cases hk : it.1 = k
    · simp only [hk, decide_True]
      rcases List.mem_cons.1 hm with e | e
      · rw [← e]; rfl
      · exfalso
        apply hnot
        rw [hk]
        exact List.mem_map.2 ⟨(k, g), e, rfl⟩
    · simp only [hk, decide_False]
      rcases List.mem_cons.1 hm with e | e
      · exact absurd (by rw [← e]) hk
      · exact ih hrest e

theorem Get_of_mem_WF (fl : FileList) (k : GoString) (g : VirtualFile) (h : fl.WF)
    (hm : (k, g) ∈ fl.items) : fl.Get k = some g :=
  Get_of_mem_nodup fl.items k g h.1 hm

theorem sorted_getFilesInsidePath (fl : FileList) (d : GoString) :
    (fl.getFilesInsidePath d).Sorted createdLE :=
  List.sorted_insertionSort _ _

theorem not_swept_of_Newest (fl : FileList) (p d : GoString) (f : VirtualFile)
    (h : fl.Newest p f) : p ∉ swept fl d := by
  obtain ⟨hwf, hget, hnew⟩ := h
  intro hp
  unfold swept at hp
  obtain ⟨g, hg, hgp⟩ := List.mem_map.1 hp
  set S := fl.getFilesInsidePath d with hS
  set m := S.length - 4 with hm
  have info : ∀ x ∈ S, (x.filePath, x) ∈ fl.items := by
    intro x hx
    obtain ⟨k, hk, _⟩ := (mem_getFilesInsidePath fl d x).1 hx
    have := hwf.2 _ hk
    simp only at this
    rw [this]; exact hk
  have hgf : g = f := by
    have h1 := Get_of_mem_WF fl _ g hwf (info g (List.mem_of_mem_take hg))
    rw [hgp, hget] at h1
    exact (Option.some.inj h1).symm
  subst hgf
  have hmpos : 0 < m := by
    rcases Nat.eq_zero_or_pos m with h0 | h0
    · rw [h0] at hg; simp at hg
    · exact h0
  have hdrop : S.drop m ≠ [] := by
    intro e
    have := congrArg List.length e
    rw [List.length_drop] at this
    simp at this
    omega
  obtain ⟨x, hx⟩ := List.exists_mem_of_ne_nil _ hdrop
  have hle : createdLE g x := (sorted_getFilesInsidePath fl d).rel_of_mem_take_of_mem_drop hg hx
  have hxS : x ∈ S := List.mem_of_mem_drop hx
  by_cases hxp : x.filePath = p
  · have h1 := Get_of_mem_WF fl _ x hwf (info x hxS)
    rw [hxp, hget] at h1
    have hxg : x = g := (Option.some.inj h1).symm
    subst hxg
    have hnd : S.Nodup := List.Nodup.of_map _ (nodup_getFilesInsidePath_paths fl d hwf)
    rw [← List.take_append_drop m S] at hnd
    exact (List.nodup_append.1 hnd).2.2 hg hx
  · have := hnew _ (info x hxS) hxp
    simp only at this
    unfold createdLE at hle
    omega

theorem Newest_pathRetention (vfs : VirtualFileSystem) (p d : GoString) (f : VirtualFile)
    (h : vfs.files.Newest p f) : (vfs.pathRetention d).files.Newest p f := by
  refine ⟨WF_pathRetention vfs d h.1, ?_, ?_⟩
  · rw [Get_pathRetention_of_not_swept vfs d p (not_swept_of_Newest _ p d f h)]
    exact h.2.1
  · intro it hit
    rw [pathRetention_items] at hit
    exact h.2.2 it (List.mem_of_mem_filter hit)

theorem Newest_modify (fl : FileList) (p : GoString) (f : VirtualFile)
    (g : VirtualFile → VirtualFile) (hc : ∀ x, (g x).created = x.created)
    (hp : ∀ x, (g x).filePath = x.filePath) (h : fl.Newest p f) :
    (fl.modify p g).Newest p (g f) := by
  obtain ⟨hwf, hget, hnew⟩ := h
  refine ⟨⟨?_, ?_⟩, ?_, ?_⟩
  · have : (fl.modify p g).items.map Prod.fst = fl.items.map Prod.fst := by
      simp only [FileList.modify, List.map_map]
      apply List.map_congr_left
      intro it _
      simp only [Function.comp]
      split_ifs <;> rfl
    rw [this]; exact hwf.1
  · intro it hit
    simp only [FileList.modify] at hit
    obtain ⟨it0, hit0, rfl⟩ := List.mem_map.1 hit
    split_ifs
    · simp only [hp]; exact hwf.2 it0 hit0
    · exact hwf.2 it0 hit0
  · rw [Get_modify, if_pos rfl, hget]; rfl
  · intro it hit hne
    simp only [FileList.modify] at hit
    obtain ⟨it0, hit0, rfl⟩ := List.mem_map.1 hit
    by_cases hk : it0.1 = p
    · simp only [hk, ↓reduceIte] at hne
      exact absurd rfl hne
    · simp only [hk, ↓reduceIte] at hne ⊢
      rw [hc]
      exact hnew it0 hit0 hk

theorem Newest_write_open (vfs : VirtualFileSystem) (device : Device) (p : GoString)
    (flag now : Nat) (hwf : vfs.files.WF) (hts : ∀ it ∈ vfs.files.items, it.2.created < now)
    (hw : flag &&& O_WRONLY ≠ 0) (ha : flag &&& O_APPEND = 0) :
    (OpenFile vfs device p flag now).1.files.Newest p (newVirtualFile device p now) := by
  have hfiles := OpenFile_files vfs device p flag now
  rw [Get_openFiles_write _ _ _ _ _ hw ha] at hfiles
  refine ⟨WF_OpenFile vfs device p flag now hwf, ?_, ?_⟩
  · rw [hfiles]
    exact (Get_append_of_none _ p p _ (by
      show ((vfs.pathRetention (getDirPath (Dir p))).files.Delete p).Get p = none
      rw [Get_Delete, if_pos rfl])).trans (if_pos rfl)
  · intro it hit hne
    rw [hfiles] at hit
    rcases List.mem_append.1 hit with hm | hm
    · have h1 := List.mem_of_mem_filter hm
      rw [pathRetention_items] at h1
      exact hts it (List.mem_of_mem_filter h1)
    · simp only [List.mem_singleton] at hm
      subst hm
      exact absurd rfl hne

theorem read_open_of_Newest (vfs : VirtualFileSystem) (device : Device) (p : GoString)
    (flag now : Nat) (f : VirtualFile) (h : vfs.files.Newest p f)
    (hr : flag &&& O_WRONLY = 0) :
    (OpenFile vfs device p flag now).2 = .ok f ∧
      (OpenFile vfs device p flag now).1.files.Get p = some f := by
  have h1 := Newest_pathRetention vfs p (getDirPath (Dir p)) f h
  have hget : (OpenFile vfs device p flag now).1.files.Get p = some f := by
    rw [OpenFile_files]
    unfold openFiles
    simp only [if_neg (not_not.2 hr)]
    split_ifs
    · rw [Get_Create, if_pos rfl, h1.2.1]; rfl
    · exact h1.2.1
  exact ⟨by rw [OpenFile_result, hget], hget⟩

/-! ## Uploads to one directory -/

theorem getFilesInsidePath_eq_sort (fl : FileList) (d : GoString) :
    fl.getFilesInsidePath d = sortByCreated (insideFiles fl d) := rfl

theorem sortByCreated_of_sorted (L : List VirtualFile) (h : L.Sorted createdLT) :
    sortByCreated L = L := by
  apply List.Sorted.insertionSort_eq
  exact List.Pairwise.imp (fun hab => Nat.le_of_lt hab) h

theorem nodup_paths_insideFiles (fl : FileList) (d : GoString) (h : fl.WF) :
    ((insideFiles fl d).map VirtualFile.filePath).Nodup :=
  nodup_insideFiles_paths fl d h

theorem insideFiles_filter (items : List (GoString × VirtualFile)) (d : GoString)
    (keep : GoString → Bool) (h : (FileList.mk items).WF) :
    insideFiles ⟨items.filter (fun it => keep it.1)⟩ d =
      (insideFiles ⟨items⟩ d).filter (fun f => keep f.filePath) := by
  unfold insideFiles
  simp only
  rw [List.filter_comm, List.filter_map]
  congr 1
  apply List.filter_congr
  intro it hit
  simp only [Function.comp]
  rw [h.2 it (List.mem_of_mem_filter hit)]

theorem insideFiles_pathRetention (vfs : VirtualFileSystem) (d : GoString)
    (h : vfs.files.WF) (hs : (insideFiles vfs.files d).Sorted createdLT) :
    insideFiles (vfs.pathRetention d).files d =
      (insideFiles vfs.files d).drop ((insideFiles vfs.files d).length - 4) := by
  have e : (vfs.pathRetention d).files = ⟨(vfs.pathRetention d).files.items⟩ := rfl
  rw [e, pathRetention_items]
  have e2 := insideFiles_filter vfs.files.items d (fun k => decide (k ∉ swept vfs.files d)) h
  rw [e2]
  have hsw : swept vfs.files d = ((insideFiles vfs.files d).take
      ((insideFiles vfs.files d).length - 4)).map VirtualFile.filePath := by
    unfold swept
    rw [getFilesInsidePath_eq_sort, sortByCreated_of_sorted _ hs]
  rw [hsw]
  exact filter_take_eq_drop VirtualFile.filePath _ (nodup_paths_insideFiles _ d h) _ _
    (fun x => by simp)

theorem insideFiles_write_open (vfs : VirtualFileSystem) (d : GoString) (c : OpenCall)
    (h : vfs.files.WF) (hs : (insideFiles vfs.files d).Sorted createdLT)
    (hw : c.flag &&& O_WRONLY ≠ 0) (ha : c.flag &&& O_APPEND = 0)
    (hd : getDirPath (Dir c.filePath) = d) (hin : insidePath d c.filePath = true)
    (hnew : ∀ g ∈ insideFiles vfs.files d, g.filePath ≠ c.filePath) :
    insideFiles (OpenFile vfs c.device c.filePath c.flag c.now).1.files d =
      retainStep (insideFiles vfs.files d) c.file := by
  rw [OpenFile_files, Get_openFiles_write _ _ _ _ _ hw ha, hd]
  have hwf1 := WF_pathRetention vfs d h
  have e1 : insideFiles ⟨((vfs.pathRetention d).files.Delete c.filePath).items ++
      [(c.filePath, newVirtualFile c.device c.filePath c.now)]⟩ d =
      insideFiles ((vfs.pathRetention d).files.Delete c.filePath) d ++ [c.file] := by
    unfold insideFiles
    simp only [List.filter_append, List.map_append]
    congr 1
    simp [List.filter_cons, hin, OpenCall.file]
  rw [e1]
  have e2 := insideFiles_filter (vfs.pathRetention d).files.items d
    (fun k => decide (k ≠ c.filePath)) hwf1
  have e3 : insideFiles ((vfs.pathRetention d).files.Delete c.filePath) d =
      (insideFiles (vfs.pathRetention d).files d).filter
        (fun f => decide (f.filePath ≠ c.filePath)) := e2
  rw [e3, insideFiles_pathRetention vfs d h hs]
  unfold retainStep
  congr 1
  rw [List.filter_eq_self]
  intro g hg
  have := hnew g (List.mem_of_mem_drop hg)
  simpa using this

theorem retainStep_sorted (L : List VirtualFile) (f : VirtualFile) (hs : L.Sorted createdLT)
    (hf : ∀ g ∈ L, g.created < f.created) : (retainStep L f).Sorted createdLT := by
  unfold retainStep List.Sorted
  rw [List.pairwise_append]
  refine ⟨List.Pairwise.sublist (List.drop_sublist _ _) hs, List.pairwise_singleton _ _, ?_⟩
  intro a ha b hb
  simp only [List.mem_singleton] at hb
  subst hb
  exact hf a (List.mem_of_mem_drop ha)

theorem mem_retainStep (L : List VirtualFile) (f g : VirtualFile) (h : g ∈ retainStep L f) :
    g ∈ L ∨ g = f := by
  unfold retainStep at h
  rcases List.mem_append.1 h with h | h
  · exact Or.inl (List.mem_of_mem_drop h)
  · exact Or.inr (by simpa using h)

theorem insideFiles_runOpenFiles (d : GoString) (calls : List OpenCall)
    (vfs : VirtualFileSystem) (h : vfs.files.WF)
    (hs : (insideFiles vfs.files d).Sorted createdLT)
    (hflags : ∀ c ∈ calls, c.flag &&& O_WRONLY ≠ 0 ∧ c.flag &&& O_APPEND = 0)
    (hpaths : ∀ c ∈ calls, getDirPath (Dir c.filePath) = d ∧ insidePath d c.filePath = true)
    (hdistinct : (calls.map OpenCall.filePath).Nodup)
    (htimes : (calls.map OpenCall.now).Sorted (· < ·))
    (hold : ∀ g ∈ insideFiles vfs.files d, ∀ c ∈ calls,
      g.created < c.now ∧ g.filePath ≠ c.filePath) :
    insideFiles (runOpenFiles vfs calls).files d =
      (calls.map OpenCall.file).foldl retainStep (insideFiles vfs.files d) := by
  induction calls generalizing vfs with
  | nil => rfl
  | cons c cs ih =>
    simp only [runOpenFiles, List.foldl_cons, List.map_cons]
    have hc := hflags c (List.mem_cons_self _ _)
    have hp := hpaths c (List.mem_cons_self _ _)
    have hstep := insideFiles_write_open vfs d c h hs hc.1 hc.2 hp.1 hp.2
      (fun g hg => (hold g hg c (List.mem_cons_self _ _)).2)
    rw [List.map_cons] at hdistinct htimes
    obtain ⟨hcnot, hdist'⟩ := List.nodup_cons.1 hdistinct
    obtain ⟨hclt, htimes'⟩ := List.sorted_cons.1 htimes
    have ih' := ih (OpenFile vfs c.device c.filePath c.flag c.now).1
      (WF_OpenFile _ _ _ _ _ h)
      (by
        rw [hstep]
        exact retainStep_sorted _ _ hs
          (fun g hg => (hold g hg c (List.mem_cons_self _ _)).1))
      (fun c' hc' => hflags c' (List.mem_cons_of_mem _ hc'))
      (fun c' hc' => hpaths c' (List.mem_cons_of_mem _ hc'))
      hdist' htimes'
      (by
        intro g hg c' hc'
        rw [hstep] at hg
        rcases mem_retainStep _ _ _ hg with hg | hg
        · exact hold g hg c' (List.mem_cons_of_mem _ hc')
        · subst hg
          constructor
          · exact hclt _ (List.mem_map_of_mem _ hc')
          · intro e
            apply hcnot
            have : c.filePath = c'.filePath := e
            rw [this]
            exact List.mem_map_of_mem _ hc')
    rw [hstep] at ih'
    exact ih'

theorem foldl_retainStep (fs : List VirtualFile) :
    fs.foldl retainStep [] = fs.drop (fs.length - 5) := by
  induction fs using List.reverseRecOn with
  | nil => rfl
  | append_singleton fs f ih =>
    rw [List.foldl_append, List.foldl_cons, List.foldl_nil, ih]
    unfold retainStep
    rw [List.drop_drop, List.length_drop, List.length_append, List.length_singleton]
    have e : fs.length - 5 + (fs.length - (fs.length - 5) - 4) = fs.length + 1 - 5 := by omega
    rw [e, List.drop_append_of_le_length (by omega)]

theorem dir_eq_of_inside (x p : GoString) (hp : cleanAbsolute p)
    (hin : insidePath (getDirPath x) p = true) : getDirPath (Dir p) = getDirPath x := by
  rw [getDirPath_Dir_of_clean p hp]
  obtain ⟨r, hpr, hr, hs⟩ := (insidePath_iff _ _).1 hin
  have hhead := hp.2
  have key : ∀ a : GoString, Split (a ++ [slash] ++ r) = (a ++ [slash], r) := by
    intro a
    have := Split_append a r hs
    simpa using this
  unfold getDirPath at hpr ⊢
  simp only at hpr ⊢
  by_cases hl : (Clean x).length > 1
  · rw [if_pos hl] at hpr ⊢
    rw [hpr, key]
  · rw [if_neg hl] at hpr ⊢
    rw [hpr] at hhead
    cases hc : Clean x with
    | nil =>
      rw [hc] at hhead
      cases r with
      | nil => exact absurd rfl hr
      | cons y ys =>
        simp at hhead
        subst hhead
        exact absurd (List.mem_cons_self _ _) hs
    | cons y ys =>
      rw [hc] at hhead hl
      simp at hhead
      subst hhead
      have hys : ys = [] := by
        cases ys with
        | nil => rfl
        | cons z zs => simp at hl
      subst hys
      rw [hpr, hc]
      have := key []
      simp only [List.nil_append, List.singleton_append] at this
      rw [List.singleton_append, this]

theorem IsDir_directoryInfo (name : GoString) (now : Nat) :
    (directoryInfo name now).IsDir = true := by
  have h : (mode0666 ||| ModeDir) &&& ModeDir ≠ 0 := by decide
  simp only [VirtualFileInfo.IsDir, directoryInfo]
  exact decide_eq_true h

theorem IsDir_getFileInfo (vf : VirtualFile) (name : GoString) :
    (vf.getFileInfo name).IsDir = false := by
  have h : ¬ mode0666 &&& ModeDir ≠ 0 := by decide
  simp only [VirtualFileInfo.IsDir, VirtualFile.getFileInfo]
  exact decide_eq_false h

theorem ListFiles_files (vfs : VirtualFileSystem) (ccPath : GoString) (now : Nat) :
    (ListFiles vfs ccPath now).filter (fun i => !i.IsDir) =
      (vfs.files.getFilesInsidePath (getDirPath ccPath)).map
        (fun file => file.getFileInfo (file.filePath.drop (getDirPath ccPath).length)) := by
  unfold ListFiles
  simp only [List.filter_append]
  have h1 : List.filter (fun i => !i.IsDir)
      (List.filterMap (fun directory =>
        if insidePath (getDirPath ccPath) directory = true then
          some (directoryInfo (List.drop (getDirPath ccPath).length directory) now)
        else none) vfs.directories.Iterate) = [] := by
    rw [List.filter_eq_nil_iff]
    intro i hi
    obtain ⟨dir, _, hd⟩ := List.mem_filterMap.1 hi
    split_ifs at hd
    have := Option.some.inj hd
    subst this
    simp [IsDir_directoryInfo]
  rw [h1, List.nil_append, List.filter_eq_self]
  intro i hi
  obtain ⟨f, _, rfl⟩ := List.mem_map.1 hi
  simp [IsDir_getFileInfo]

/-! ## Listing directories -/

theorem ListFiles_directories (vfs : VirtualFileSystem) (ccPath : GoString) (now : Nat) :
    (ListFiles vfs ccPath now).filter (fun i => i.IsDir) =
      vfs.directories.Iterate.filterMap (fun directory =>
        if insidePath (getDirPath ccPath) directory then
          some (directoryInfo (directory.drop (getDirPath ccPath).length) now)
        else none) := by
  unfold ListFiles
  simp only [List.filter_append]
  have h2 : List.filter (fun i => i.IsDir)
      (List.map (fun file => file.getFileInfo
        (List.drop (getDirPath ccPath).length file.filePath))
        (vfs.files.getFilesInsidePath (getDirPath ccPath))) = [] := by
    rw [List.filter_eq_nil_iff]
    intro i hi
    obtain ⟨f, _, rfl⟩ := List.mem_map.1 hi
    simp [IsDir_getFileInfo]
  rw [h2, List.append_nil, List.filter_eq_self]
  intro i hi
  obtain ⟨dir, _, hd⟩ := List.mem_filterMap.1 hi
  split_ifs at hd
  have := Option.some.inj hd
  subst this
  exact IsDir_directoryInfo _ _

/-! ## Authentication -/

theorem authLoop_no_match (vfs : VirtualFileSystem) (devices : List Device)
    (user pass : String) (cameras : List FtpCameraConfig)
    (h : ∀ c ∈ cameras, ¬ (c.User = user ∧ c.Password = pass)) :
    authLoop vfs devices user pass cameras = .error .ErrBadLogin := by
  induction cameras with
  | nil => rfl
  | cons c rest ih =>
    unfold authLoop
    rw [if_neg (h c (List.mem_cons_self _ _))]
    exact ih (fun c' hc' => h c' (List.mem_cons_of_mem _ hc'))

theorem authLoop_first_match (vfs : VirtualFileSystem) (devices : List Device)
    (user pass : String) (cameras : List FtpCameraConfig) (camera : FtpCameraConfig)
    (h : cameras.find? (fun c => decide (c.User = user ∧ c.Password = pass)) = some camera) :
    authLoop vfs devices user pass cameras =
      match Storage.GetByName devices camera.Name with
      | .error err => .error err
      | .ok device => .ok { vfs := vfs, device := device } := by
  induction cameras with
  | nil => simp at h
  | cons c rest ih =>
    unfold authLoop
    rw [List.find?_cons] at h
    by_cases hc : c.User = user ∧ c.Password = pass
    · rw [if_pos hc]
      simp only [hc, and_self, decide_True] at h
      rw [Option.some.inj h]
    · rw [if_neg hc]
      simp only [hc, decide_False] at h
      exact ih h

/-! ## The sweep comes first -/

theorem head_mem_swept (fl : FileList) (d : GoString) (f : VirtualFile)
    (rest : List VirtualFile) (h : fl.getFilesInsidePath d = f :: rest)
    (h4 : 4 ≤ rest.length) : f.filePath ∈ swept fl d := by
  unfold swept
  rw [h, List.length_cons]
  have e : rest.length + 1 - 4 = (rest.length - 4) + 1 := by omega
  rw [e, List.take_succ_cons, List.map_cons]
  exact List.mem_cons_self _ _

theorem Get_pathRetention_of_swept (vfs : VirtualFileSystem) (d p : GoString)
    (h : p ∈ swept vfs.files d) : (vfs.pathRetention d).files.Get p = none := by
  rw [Get_eq_none_iff]
  intro it hit
  rw [pathRetention_items] at hit
  have := (List.mem_filter.1 hit).2
  intro e
  rw [e] at this
  simp [h] at this

/-! ## The claims -/

/-- C1: with five files directly inside `/cam1/`, `pathRetention` keeps four
of them, not the five the claim (and the comment in the code) promise: the loop
guard `i <= len(fileList)-5` deletes the oldest file as soon as there are five. -/
theorem pathRetention_five_files_keeps_four :
    namesInside fiveFiles cam1Dir = ["a", "b", "c", "d", "e"] ∧
      namesInside (fiveFiles.pathRetention cam1Dir) cam1Dir = ["b", "c", "d", "e"] := by
  decide

/-- C2: in every file store reached from the empty store by `OpenFile` calls on clean
absolute paths, with any flags, devices and times, every directory has at most 5
files directly inside it. -/
theorem retention_invariant (calls : List OpenCall)
    (hc : ∀ c ∈ calls, cleanAbsolute c.filePath) (d : GoString) :
    ((runOpenFiles NewVirtualFileSystem calls).files.getFilesInsidePath d).length ≤ 5 :=
  count_inside_runOpenFiles calls NewVirtualFileSystem WF_New (fun _ => Nat.zero_le _) hc d

/-- C2 (witness): the six uploads to `/cam1/`. -/
theorem retention_invariant_witness :
    (∀ c ∈ sixWrites, cleanAbsolute c.filePath) ∧
      ((runOpenFiles NewVirtualFileSystem sixWrites).files.getFilesInsidePath cam1Dir).length
        ≤ 5 :=
  ⟨by decide, retention_invariant sixWrites (by decide) cam1Dir⟩

/-- C3: after write-opens, without append, of distinct clean paths directly
inside one directory that was empty, made at strictly increasing times, the
file entries of `ListFiles` for that directory are those of the last
`min(N, 5)` files written, oldest first. -/
theorem ListFiles_after_uploads (vfs : VirtualFileSystem) (ccPath : GoString)
    (calls : List OpenCall) (now : Nat) (hwf : vfs.files.WF)
    (hempty : vfs.files.getFilesInsidePath (getDirPath ccPath) = [])
    (hflags : ∀ c ∈ calls, c.flag &&& O_WRONLY ≠ 0 ∧ c.flag &&& O_APPEND = 0)
    (hpaths : ∀ c ∈ calls,
      cleanAbsolute c.filePath ∧ insidePath (getDirPath ccPath) c.filePath = true)
    (hdistinct : (calls.map OpenCall.filePath).Nodup)
    (htimes : (calls.map OpenCall.now).Sorted (· < ·)) :
    (ListFiles (runOpenFiles vfs calls) ccPath now).filter (fun i => !i.IsDir) =
      (calls.drop (calls.length - 5)).map
        (fun c => c.file.getFileInfo (c.filePath.drop (getDirPath ccPath).length)) := by
  have h0 : insideFiles vfs.files (getDirPath ccPath) = [] := by
    have := congrArg List.length hempty
    rw [getFilesInsidePath_eq_sort] at this
    unfold sortByCreated at this
    rw [List.length_insertionSort] at this
    exact List.eq_nil_of_length_eq_zero this
  have hrun := insideFiles_runOpenFiles (getDirPath ccPath) calls vfs hwf
    (by rw [h0]; exact List.sorted_nil) hflags
    (fun c hc => ⟨dir_eq_of_inside ccPath c.filePath (hpaths c hc).1 (hpaths c hc).2,
      (hpaths c hc).2⟩)
    hdistinct htimes (by rw [h0]; intro g hg; simp at hg)
  rw [h0, foldl_retainStep, List.length_map] at hrun
  have hsorted : ((calls.map OpenCall.file).drop (calls.length - 5)).Sorted createdLT := by
    apply List.Pairwise.sublist (List.drop_sublist _ _)
    unfold List.Sorted at htimes
    rw [List.pairwise_map] at htimes ⊢
    exact htimes
  rw [ListFiles_files, getFilesInsidePath_eq_sort, hrun, sortByCreated_of_sorted _ hsorted,
    ← List.map_drop, List.map_map]
  rfl

/-- C3 (witness): after the uploads `a`, `b`, `c`, `d`, `e`, `f` to `/cam1/` the
listing of `/cam1` is `b`, `c`, `d`, `e`, `f`, in that order, and `a` is gone. -/
theorem ListFiles_after_uploads_witness :
    NewVirtualFileSystem.files.WF ∧
      NewVirtualFileSystem.files.getFilesInsidePath (getDirPath "/cam1".toList) = [] ∧
      (∀ c ∈ sixWrites, c.flag &&& O_WRONLY ≠ 0 ∧ c.flag &&& O_APPEND = 0) ∧
      (∀ c ∈ sixWrites, cleanAbsolute c.filePath ∧
        insidePath (getDirPath "/cam1".toList) c.filePath = true) ∧
      (sixWrites.map OpenCall.filePath).Nodup ∧
      (sixWrites.map OpenCall.now).Sorted (· < ·) ∧
      (ListFiles (runOpenFiles NewVirtualFileSystem sixWrites) "/cam1".toList 9).filter
          (fun i => !i.IsDir) =
        (sixWrites.drop (sixWrites.length - 5)).map
          (fun c => c.file.getFileInfo (c.filePath.drop (getDirPath "/cam1".toList).length)) ∧
      ((sixWrites.drop (sixWrites.length - 5)).map
          (fun c => c.file.getFileInfo
            (c.filePath.drop (getDirPath "/cam1".toList).length))).map
          (fun i => String.mk i.name) = ["b", "c", "d", "e", "f"] :=
  ⟨by decide, by decide, by decide, by decide, by decide, by decide,
    ListFiles_after_uploads NewVirtualFileSystem "/cam1".toList sixWrites 9
      (by decide) (by decide) (by decide) (by decide) (by decide) (by decide),
    by decide⟩

/-- C4: in a store all of whose files were created before the write-open, opening
`p` for writing without append, writing the bytes `B`, closing, and then opening
`p` for reading succeeds and yields the file the write-open created, with the
payload `B`. It holds for every path `p`, clean or not. -/
theorem write_close_read_round_trip (vfs : VirtualFileSystem) (writer reader : Device)
    (p : GoString) (flag flagR : Nat) (B : List Nat) (t1 t2 t3 : Nat)
    (hwf : vfs.files.WF) (hts : ∀ it ∈ vfs.files.items, it.2.created < t1)
    (hw : flag &&& O_WRONLY ≠ 0) (ha : flag &&& O_APPEND = 0)
    (hr : flagR &&& O_WRONLY = 0) :
    ∃ file, (OpenFile (closeHandle (writeHandle (OpenFile vfs writer p flag t1).1 p B) p t2)
        reader p flagR t3).2 = .ok file ∧
      file.content = B ∧ file.Size = B.length ∧ file.created = t1 ∧ file.device = writer ∧
      file.filePath = p := by
  have h1 := Newest_write_open vfs writer p flag t1 hwf hts hw ha
  have h2 := Newest_modify _ p _ (fun vf => vf.Write B) (fun _ => rfl) (fun _ => rfl) h1
  have h3 := Newest_modify _ p _ (fun vf => vf.Close t2) (fun _ => rfl) (fun _ => rfl) h2
  have h4 : (closeHandle (writeHandle (OpenFile vfs writer p flag t1).1 p B) p t2).files.Newest
      p (((newVirtualFile writer p t1).Write B).Close t2) :=
    Newest_pathRetention _ p _ _ h3
  refine ⟨_, (read_open_of_Newest _ reader p flagR t3 _ h4 hr).1, ?_, ?_, rfl, rfl, rfl⟩
  · simp [VirtualFile.Close, VirtualFile.Write, newVirtualFile]
  · simp [VirtualFile.Close, VirtualFile.Write, newVirtualFile, VirtualFile.Size]

/-- C4 (witness): `cam1` uploads the bytes 1, 2, 3 to `/cam1/f` at time 6 in the
store with `/cam1/a` to `/cam1/e`, and `cam2` reads the file back. -/
theorem write_close_read_round_trip_witness :
    fiveFiles.files.WF ∧ (∀ it ∈ fiveFiles.files.items, it.2.created < 6) ∧
      O_WRONLY &&& O_WRONLY ≠ 0 ∧ O_WRONLY &&& O_APPEND = 0 ∧ O_RDONLY &&& O_WRONLY = 0 ∧
      ∃ file, (OpenFile (closeHandle (writeHandle
          (OpenFile fiveFiles cam1 "/cam1/f".toList O_WRONLY 6).1 "/cam1/f".toList [1, 2, 3])
          "/cam1/f".toList 7) cam2 "/cam1/f".toList O_RDONLY 8).2 = .ok file ∧
        file.content = [1, 2, 3] ∧ file.Size = [1, 2, 3].length ∧ file.created = 6 ∧
        file.device = cam1 ∧ file.filePath = "/cam1/f".toList :=
  ⟨by decide, by decide, by decide, by decide, by decide,
    write_close_read_round_trip fiveFiles cam1 cam2 "/cam1/f".toList O_WRONLY O_RDONLY
      [1, 2, 3] 6 7 8 (by decide) (by decide) (by decide) (by decide) (by decide)⟩

/-- C5 (as stated, refuted): the file stored at `/cam1//a` is not directly inside
the directory of that path, `/cam1/`, and a write-open of `/cam1//a` replaces
it. -/
theorem OpenFile_unclean_path_replaces_file :
    uncleanStore.files.WF ∧
      insidePath (getDirPath (Dir uncleanPath)) uncleanPath = false ∧
      uncleanStore.files.Get uncleanPath = some (newVirtualFile cam1 uncleanPath 1) ∧
      (OpenFile uncleanStore cam1 uncleanPath O_WRONLY 2).1.files.Get uncleanPath ≠
        uncleanStore.files.Get uncleanPath := by
  decide

/-- C5 (amended): `OpenFile(p, flag)` leaves every file stored at a path other
than `p` that is not directly inside the directory of `p` present and unchanged,
and `pathRetention(d)` leaves every file that is not directly inside `d` present
and unchanged. -/
theorem OpenFile_leaves_other_directories (vfs : VirtualFileSystem) (device : Device)
    (p q : GoString) (flag now : Nat) (h : vfs.files.WF) (hq : q ≠ p)
    (hin : insidePath (getDirPath (Dir p)) q = false) :
    (OpenFile vfs device p flag now).1.files.Get q = vfs.files.Get q ∧
      ∀ d q', insidePath d q' = false →
        (vfs.pathRetention d).files.Get q' = vfs.files.Get q' :=
  ⟨Get_OpenFile_of_ne vfs device p q flag now h hq hin,
    fun d q' hd => Get_pathRetention_of_not_inside vfs d q' h hd⟩

/-- C5 (witness): a write-open of `/cam2/x` leaves `/cam1/a`, and the sweep of
`/cam2/` leaves `/cam1/a`. -/
theorem OpenFile_leaves_other_directories_witness :
    fiveFiles.files.WF ∧ "/cam1/a".toList ≠ "/cam2/x".toList ∧
      insidePath (getDirPath (Dir "/cam2/x".toList)) "/cam1/a".toList = false ∧
      (OpenFile fiveFiles cam2 "/cam2/x".toList O_WRONLY 6).1.files.Get "/cam1/a".toList =
        fiveFiles.files.Get "/cam1/a".toList ∧
      (fiveFiles.pathRetention "/cam2/".toList).files.Get "/cam1/a".toList =
        fiveFiles.files.Get "/cam1/a".toList :=
  ⟨by decide, by decide, by decide,
    (OpenFile_leaves_other_directories fiveFiles cam2 "/cam2/x".toList "/cam1/a".toList
      O_WRONLY 6 (by decide) (by decide) (by decide)).1,
    (OpenFile_leaves_other_directories fiveFiles cam2 "/cam2/x".toList "/cam1/a".toList
      O_WRONLY 6 (by decide) (by decide) (by decide)).2 "/cam2/".toList "/cam1/a".toList
      (by decide)⟩

/-- C6 (as stated, refuted): `/cam1/a` is owned by `cam1`, and an upload of
`/cam1/f` by a session of the other device `cam2` removes it. -/
theorem OpenFile_removes_file_of_other_device :
    (fiveFiles.files.Get "/cam1/a".toList).map VirtualFile.device = some cam1 ∧
      cam1 ≠ cam2 ∧
      (OpenFile fiveFiles cam2 "/cam1/f".toList O_WRONLY 6).1.files.Get "/cam1/a".toList =
        none := by
  decide

/-- C6 (amended): retention is per directory of the one store all sessions share,
whatever the devices. For every call `OpenFile(p, flag)`, which paths are stored
afterwards does not depend on the device of the calling session, and a file, of
whichever device, that the call removes was directly inside the directory of
`p`. -/
theorem OpenFile_retention_ignores_device (vfs : VirtualFileSystem) (A B : Device)
    (p : GoString) (flag now : Nat) :
    (OpenFile vfs A p flag now).1.files.items.map Prod.fst =
        (OpenFile vfs B p flag now).1.files.items.map Prod.fst ∧
      ∀ q f, vfs.files.WF → vfs.files.Get q = some f →
        (OpenFile vfs A p flag now).1.files.Get q = none →
        insidePath (getDirPath (Dir p)) q = true := by
  constructor
  · rw [OpenFile_files, OpenFile_files]
    exact openFiles_paths_device _ A B p flag now
  · intro q f h hf hr
    by_contra hin
    have hin' : insidePath (getDirPath (Dir p)) q = false := by simpa using hin
    by_cases hq : q = p
    · subst hq
      rw [OpenFile_files] at hr
      have h1 := Get_openFiles_self_none _ _ _ _ _ hr
      rw [Get_pathRetention_of_not_inside _ _ _ h hin', hf] at h1
      exact absurd h1 (by simp)
    · rw [Get_OpenFile_of_ne vfs A p q flag now h hq hin', hf] at hr
      exact absurd hr (by simp)

/-- C6 (witness): the upload of `/cam1/f` by `cam2` removes `/cam1/a` of `cam1`,
and an upload into the empty store, which removes nothing, stores the same path
for either device. -/
theorem OpenFile_retention_ignores_device_witness :
    fiveFiles.files.WF ∧
      fiveFiles.files.Get "/cam1/a".toList = some (newVirtualFile cam1 "/cam1/a".toList 1) ∧
      (OpenFile fiveFiles cam2 "/cam1/f".toList O_WRONLY 6).1.files.Get "/cam1/a".toList =
        none ∧
      insidePath (getDirPath (Dir "/cam1/f".toList)) "/cam1/a".toList = true ∧
      (OpenFile fiveFiles cam2 "/cam1/f".toList O_WRONLY 6).1.files.items.map Prod.fst =
        (OpenFile fiveFiles cam1 "/cam1/f".toList O_WRONLY 6).1.files.items.map Prod.fst ∧
      (OpenFile NewVirtualFileSystem cam2 "/cam1/f".toList O_WRONLY 6).1.files.items.map
          Prod.fst =
        (OpenFile NewVirtualFileSystem cam1 "/cam1/f".toList O_WRONLY 6).1.files.items.map
          Prod.fst :=
  ⟨by decide, by decide, by decide,
    (OpenFile_retention_ignores_device fiveFiles cam2 cam1 "/cam1/f".toList O_WRONLY 6).2
      "/cam1/a".toList (newVirtualFile cam1 "/cam1/a".toList 1) (by decide) (by decide)
      (by decide),
    (OpenFile_retention_ignores_device fiveFiles cam2 cam1 "/cam1/f".toList O_WRONLY 6).1,
    (OpenFile_retention_ignores_device NewVirtualFileSystem cam2 cam1 "/cam1/f".toList
      O_WRONLY 6).1⟩

/-- C7: a write-open without append succeeds and returns a new record, empty,
owned by the session's device, with the path `p`; afterwards that record is the
file stored at `p`, and the only one. -/
theorem OpenFile_write_creates_new_file (vfs : VirtualFileSystem) (device : Device)
    (p : GoString) (flag now : Nat) (hw : flag &&& O_WRONLY ≠ 0)
    (ha : flag &&& O_APPEND = 0) :
    ∃ file, (OpenFile vfs device p flag now).2 = .ok file ∧ file.device = device ∧
      file.filePath = p ∧ file.content = [] ∧ file.Size = 0 ∧ file.created = now ∧
      (OpenFile vfs device p flag now).1.files.Get p = some file ∧
      (OpenFile vfs device p flag now).1.files.items.filter (fun it => it.1 = p) =
        [(p, file)] := by
  have hfiles := OpenFile_files vfs device p flag now
  rw [Get_openFiles_write _ _ _ _ _ hw ha] at hfiles
  have hget : (OpenFile vfs device p flag now).1.files.Get p =
      some (newVirtualFile device p now) := by
    rw [hfiles]
    rw [Get_append_of_none _ p p _ (by rw [Get_Delete, if_pos rfl]), if_pos rfl]
  refine ⟨newVirtualFile device p now, ?_, rfl, rfl, rfl, rfl, rfl, hget, ?_⟩
  · rw [OpenFile_result, hget]
  · rw [hfiles]
    simp only [FileList.Delete, List.filter_append, List.filter_filter]
    have : List.filter (fun a => decide (a.1 = p) && decide (a.1 ≠ p))
        (vfs.pathRetention (getDirPath (Dir p))).files.items = [] := by
      rw [List.filter_eq_nil_iff]
      intro a _
      by_cases e : a.1 = p <;> simp [e]
    rw [this]
    simp

/-- C7 (witness): in the store with `/cam1/a` to `/cam1/e`, `cam2` opens `/cam1/c`
for writing. -/
theorem OpenFile_write_creates_new_file_witness :
    O_WRONLY &&& O_WRONLY ≠ 0 ∧ O_WRONLY &&& O_APPEND = 0 ∧
      ∃ file, (OpenFile fiveFiles cam2 "/cam1/c".toList O_WRONLY 9).2 = .ok file ∧
        file.device = cam2 ∧ file.filePath = "/cam1/c".toList ∧ file.content = [] ∧
        file.Size = 0 ∧ file.created = 9 ∧
        (OpenFile fiveFiles cam2 "/cam1/c".toList O_WRONLY 9).1.files.Get "/cam1/c".toList =
          some file ∧
        (OpenFile fiveFiles cam2 "/cam1/c".toList O_WRONLY 9).1.files.items.filter
          (fun it => it.1 = "/cam1/c".toList) = [("/cam1/c".toList, file)] :=
  ⟨by decide, by decide,
    OpenFile_write_creates_new_file fiveFiles cam2 "/cam1/c".toList O_WRONLY 9
      (by decide) (by decide)⟩

/-- C9: a read-open (neither `O_WRONLY` nor `O_CREATE`) of a path at which no
file exists fails with the not-exist error, returns no file and creates none. -/
theorem OpenFile_read_missing_fails (vfs : VirtualFileSystem) (device : Device)
    (p : GoString) (flag now : Nat) (hn : vfs.files.Get p = none)
    (hw : flag &&& O_WRONLY = 0) (hc : flag &&& O_CREATE = 0) :
    (OpenFile vfs device p flag now).2 = .error .ErrNotExist ∧
      (OpenFile vfs device p flag now).1.files.Get p = none := by
  have hget : (OpenFile vfs device p flag now).1.files.Get p = none := by
    rw [OpenFile_files]
    unfold openFiles
    have hwc : ¬ (flag &&& O_WRONLY ≠ 0 ∨ flag &&& O_CREATE ≠ 0) := by
      rintro (h | h)
      · exact h hw
      · exact h hc
    simp only [if_neg hwc, if_neg (not_not.2 hw)]
    rw [Get_eq_none_iff]
    intro it hit
    rw [pathRetention_items] at hit
    exact (Get_eq_none_iff _ _).1 hn it (List.mem_of_mem_filter hit)
  exact ⟨by rw [OpenFile_result, hget], hget⟩

/-- C9 (witness): a read-only open of `/cam1/x` in the store with `/cam1/a` to
`/cam1/e`. -/
theorem OpenFile_read_missing_fails_witness :
    fiveFiles.files.Get "/cam1/x".toList = none ∧ O_RDONLY &&& O_WRONLY = 0 ∧
      O_RDONLY &&& O_CREATE = 0 ∧
      (OpenFile fiveFiles cam1 "/cam1/x".toList O_RDONLY 9).2 = .error .ErrNotExist ∧
      (OpenFile fiveFiles cam1 "/cam1/x".toList O_RDONLY 9).1.files.Get "/cam1/x".toList =
        none :=
  ⟨by decide, by decide, by decide,
    OpenFile_read_missing_fails fiveFiles cam1 "/cam1/x".toList O_RDONLY 9
      (by decide) (by decide) (by decide)⟩

/-- C10: where the directory `/cam1` exists and no file is stored at `/cam1`,
`GetFileInfo` fails with the not-exist error, and where neither a file nor a
directory exists, at `/nope`, it returns directory info: the test of
`directories.Exists` is negated. -/
theorem GetFileInfo_directory_test_negated :
    cam1Made.files.Get "/cam1".toList = none ∧
      cam1Made.directories.Exists "/cam1".toList = true ∧
      GetFileInfo cam1Made "/cam1".toList 7 = .error .ErrNotExist ∧
      cam1Made.files.Get "/nope".toList = none ∧
      cam1Made.directories.Exists "/nope".toList = false ∧
      GetFileInfo cam1Made "/nope".toList 7 = .ok (directoryInfo "/nope".toList 7) :=
  ⟨by decide, by decide, rfl, by decide, by decide, rfl⟩

/-- C11 (as stated, refuted): a file is stored at `/cam1/sub/x`, beneath
`/cam1/sub/`, and `ListFiles` for `/cam1` has no entry at all, so none named
`sub`: the directory was never made. -/
theorem ListFiles_omits_implied_directory :
    impliedStore.files.Get "/cam1/sub/x".toList =
        some (newVirtualFile cam1 "/cam1/sub/x".toList 1) ∧
      impliedStore.directories.Exists "/cam1/sub".toList = false ∧
      ListFiles impliedStore "/cam1".toList 9 = [] := by
  decide

/-- C11 (amended): for every store, every directory `d` and every segment `s`,
`ListFiles` for `d` contains a directory entry named `s` exactly when the
directory `d/s` is in the directory registry (it was made by `MakeDirectory` or
`ChangeDirectory`, as such or as an ancestor); such an entry has the nominal
size 4096 and stands alongside the files directly inside `d`. The directory
entries do not depend on the files stored: a file stored beneath `d/s/` does not
by itself make `s` listed. -/
theorem ListFiles_lists_made_directories (vfs : VirtualFileSystem) (ccPath : GoString)
    (now : Nat) :
    (∀ s : GoString,
        (∃ entry ∈ ListFiles vfs ccPath now, entry.IsDir = true ∧ entry.name = s) ↔
          (s ≠ [] ∧ slash ∉ s ∧ getDirPath ccPath ++ s ∈ vfs.directories.Iterate)) ∧
      (∀ entry ∈ ListFiles vfs ccPath now, entry.IsDir = true → entry.size = 4096) ∧
      ∀ files : FileList,
        (ListFiles { vfs with files := files } ccPath now).filter (fun i => i.IsDir) =
          (ListFiles vfs ccPath now).filter (fun i => i.IsDir) := by
  have hdirs : ∀ entry, (entry ∈ ListFiles vfs ccPath now ∧ entry.IsDir = true) ↔
      ∃ directory ∈ vfs.directories.Iterate,
        insidePath (getDirPath ccPath) directory = true ∧
        entry = directoryInfo (directory.drop (getDirPath ccPath).length) now := by
    intro entry
    rw [← List.mem_filter, ListFiles_directories, List.mem_filterMap]
    constructor
    · rintro ⟨directory, hmem, hd⟩
      by_cases hin : insidePath (getDirPath ccPath) directory = true
      · rw [if_pos hin] at hd
        exact ⟨directory, hmem, hin, (Option.some.inj hd).symm⟩
      · rw [if_neg hin] at hd
        exact absurd hd (by simp)
    · rintro ⟨directory, hmem, hin, rfl⟩
      exact ⟨directory, hmem, by rw [if_pos hin]⟩
  refine ⟨fun s => ⟨?_, ?_⟩, ?_, ?_⟩
  · rintro ⟨entry, hmem, hdir, hname⟩
    obtain ⟨directory, hreg, hin, rfl⟩ := (hdirs entry).1 ⟨hmem, hdir⟩
    obtain ⟨r, rfl, hr, hslash⟩ := (insidePath_iff _ _).1 hin
    have : r = s := by
      have := hname
      simp only [directoryInfo, List.drop_left] at this
      exact this
    subst this
    exact ⟨hr, hslash, hreg⟩
  · rintro ⟨hs, hslash, hmade⟩
    have hin : insidePath (getDirPath ccPath) (getDirPath ccPath ++ s) = true :=
      (insidePath_iff _ _).2 ⟨s, rfl, hs, hslash⟩
    have := (hdirs (directoryInfo s now)).2
      ⟨getDirPath ccPath ++ s, hmade, hin, by rw [List.drop_left]⟩
    exact ⟨directoryInfo s now, this.1, this.2, rfl⟩
  · intro entry hmem hdir
    obtain ⟨directory, _, _, rfl⟩ := (hdirs entry).1 ⟨hmem, hdir⟩
    rfl
  · intro files
    rw [ListFiles_directories, ListFiles_directories]

/-- C11 (witness): after `MakeDirectory("/cam1/sub")` the listing of `/cam1` has
the directory entry `sub`; before it, with the file `/cam1/sub/x` stored, it has
none. -/
theorem ListFiles_lists_made_directories_witness :
    (∃ entry ∈ ListFiles madeStore "/cam1".toList 9,
        entry.IsDir = true ∧ entry.name = "sub".toList) ∧
      impliedStore.files.Get "/cam1/sub/x".toList =
        some (newVirtualFile cam1 "/cam1/sub/x".toList 1) ∧
      ¬ (∃ entry ∈ ListFiles impliedStore "/cam1".toList 9,
        entry.IsDir = true ∧ entry.name = "sub".toList) :=
  ⟨((ListFiles_lists_made_directories madeStore "/cam1".toList 9).1 "sub".toList).2
      ⟨by decide, by decide, by decide⟩,
    by decide,
    fun h => absurd
      (((ListFiles_lists_made_directories impliedStore "/cam1".toList 9).1 "sub".toList).1
        h).2.2 (by decide)⟩

/-- C12: `DeleteFile`, `RenameFile` and `ChmodFile` fail with the
permission-denied error and leave the file store and the directories as they
are, whatever the paths and the mode. -/
theorem unsupported_operations_denied (vfs : VirtualFileSystem) (path src dst : GoString)
    (mode : Nat) :
    DeleteFile vfs path = (vfs, some .ErrPermission) ∧
      RenameFile vfs src dst = (vfs, some .ErrPermission) ∧
      ChmodFile vfs path mode = (vfs, some .ErrPermission) :=
  ⟨rfl, rfl, rfl⟩

/-- C13: `AuthUser` fails when no camera has both the user name and the
password; otherwise it asks the registry for the device named by the first such
camera, in configuration order, and returns a client driver bound to that device
and to the main driver's store, or the error of the registry. -/
theorem AuthUser_first_matching_camera (driver : MainDriver) (devices : List Device)
    (user pass : String) :
    ((∀ c ∈ driver.cameras, ¬ (c.User = user ∧ c.Password = pass)) →
        AuthUser driver devices user pass = .error .ErrBadLogin) ∧
      ∀ camera,
        driver.cameras.find? (fun c => decide (c.User = user ∧ c.Password = pass)) =
            some camera →
          (∀ device, Storage.GetByName devices camera.Name = .ok device →
            AuthUser driver devices user pass =
              .ok { vfs := driver.vfs, device := device }) ∧
          (∀ err, Storage.GetByName devices camera.Name = .error err →
            AuthUser driver devices user pass = .error err) := by
  refine ⟨fun h => authLoop_no_match _ _ _ _ _ h, fun camera hcam => ?_⟩
  have := authLoop_first_match driver.vfs devices user pass driver.cameras camera hcam
  constructor
  · intro device hd
    rw [hd] at this
    exact this
  · intro err he
    rw [he] at this
    exact this

/-- C13 (witness): `cam` with the password `two` is the second camera and logs
in as `cam2`; `cam` with the password of `other` does not log in; `other` logs in
as the camera `cam3`, which is not a registered device. -/
theorem AuthUser_first_matching_camera_witness :
    AuthUser exampleDriver exampleDevices "cam" "two" =
        .ok { vfs := exampleDriver.vfs, device := cam2 } ∧
      (∀ c ∈ exampleDriver.cameras, ¬ (c.User = "other" ∧ c.Password = "two")) ∧
      AuthUser exampleDriver exampleDevices "other" "two" = .error .ErrBadLogin ∧
      AuthUser exampleDriver exampleDevices "other" "one" = .error .ErrDeviceNotFound :=
  ⟨((AuthUser_first_matching_camera exampleDriver exampleDevices "cam" "two").2
      { Name := "cam2", User := "cam", Password := "two" } (by decide)).1 cam2 rfl,
    by decide,
    (AuthUser_first_matching_camera exampleDriver exampleDevices "other" "two").1 (by decide),
    ((AuthUser_first_matching_camera exampleDriver exampleDevices "other" "one").2
      { Name := "cam3", User := "other", Password := "one" } (by decide)).2 _ rfl⟩

/-- C15: `OpenFile` sweeps the directory of `p` before it looks at its flags.
After any call the registry holds entries it held before, and perhaps the new
record at `p`, and at most 4 of the entries kept are directly inside the
directory of `p`. A read-only open of the path of the oldest of five or more
files directly inside its directory deletes that file and fails with the
not-exist error. -/
theorem OpenFile_sweeps_before_flags (vfs : VirtualFileSystem) (device : Device)
    (p : GoString) (flag now : Nat) (hwf : vfs.files.WF) :
    (∃ kept : List (GoString × VirtualFile), kept.Sublist vfs.files.items ∧
        ((OpenFile vfs device p flag now).1.files.items = kept ∨
          (OpenFile vfs device p flag now).1.files.items =
            kept ++ [(p, newVirtualFile device p now)]) ∧
        (kept.filter (fun it => insidePath (getDirPath (Dir p)) it.1)).length ≤ 4) ∧
      ∀ f rest, vfs.files.getFilesInsidePath (getDirPath (Dir p)) = f :: rest →
        4 ≤ rest.length → f.filePath = p → flag &&& O_WRONLY = 0 → flag &&& O_CREATE = 0 →
        vfs.files.Get p = some f ∧
          (OpenFile vfs device p flag now).2 = .error .ErrNotExist ∧
          (OpenFile vfs device p flag now).1.files.Get p = none := by
  constructor
  · obtain ⟨base, hsub, hitems⟩ :=
      openFiles_items (vfs.pathRetention (getDirPath (Dir p))).files device p flag now
    refine ⟨base, ?_, ?_, ?_⟩
    · refine hsub.trans ?_
      rw [pathRetention_items]
      exact List.filter_sublist _
    · rw [OpenFile_files]; exact hitems
    · exact ((hsub.filter _).length_le).trans
        (length_inside_pathRetention vfs (getDirPath (Dir p)) hwf)
  · intro f rest hS h4 hfp hw hc
    have hmem : f ∈ vfs.files.getFilesInsidePath (getDirPath (Dir p)) := by
      rw [hS]; exact List.mem_cons_self _ _
    obtain ⟨k, hk, _⟩ := (mem_getFilesInsidePath _ _ f).1 hmem
    have hkp : k = p := by
      have := hwf.2 _ hk
      simp only at this
      rw [← this, hfp]
    subst hkp
    have hget : (OpenFile vfs device k flag now).1.files.Get k = none := by
      rw [OpenFile_files]
      unfold openFiles
      have hwc : ¬ (flag &&& O_WRONLY ≠ 0 ∨ flag &&& O_CREATE ≠ 0) := by
        rintro (h | h)
        · exact h hw
        · exact h hc
      simp only [if_neg hwc, if_neg (not_not.2 hw)]
      apply Get_pathRetention_of_swept
      rw [← hfp]
      exact head_mem_swept _ _ f rest (hfp ▸ hS) h4
    exact ⟨Get_of_mem_WF _ _ _ hwf hk, by rw [OpenFile_result, hget], hget⟩

/-- C15 (witness): `/cam1/a` is the oldest of the five files in `/cam1/`; a
read-only open of it deletes it and fails. -/
theorem OpenFile_sweeps_before_flags_witness :
    fiveFiles.files.WF ∧
      namesInside fiveFiles (getDirPath (Dir "/cam1/a".toList)) = ["a", "b", "c", "d", "e"] ∧
      O_RDONLY &&& O_WRONLY = 0 ∧ O_RDONLY &&& O_CREATE = 0 ∧
      fiveFiles.files.Get "/cam1/a".toList = some (newVirtualFile cam1 "/cam1/a".toList 1) ∧
      (OpenFile fiveFiles cam2 "/cam1/a".toList O_RDONLY 9).2 = .error .ErrNotExist ∧
      (OpenFile fiveFiles cam2 "/cam1/a".toList O_RDONLY 9).1.files.Get "/cam1/a".toList =
        none :=
  ⟨by decide, by decide, by decide, by decide,
    (OpenFile_sweeps_before_flags fiveFiles cam2 "/cam1/a".toList O_RDONLY 9 (by decide)).2
      (newVirtualFile cam1 "/cam1/a".toList 1)
      [newVirtualFile cam1 "/cam1/b".toList 2, newVirtualFile cam1 "/cam1/c".toList 3,
        newVirtualFile cam1 "/cam1/d".toList 4, newVirtualFile cam1 "/cam1/e".toList 5]
      (by decide) (by decide) rfl (by decide) (by decide)⟩

end FtpServer

namespace BmvDevice

/-! ## The mapping kept by the poll loop -/

theorem get_nil {V : Type} (k : String) : NumericValues.get ([] : NumericValues V) k = none :=
  rfl

theorem get_cons {V : Type} (e : String × V) (m : NumericValues V) (k : String) :
    NumericValues.get (e :: m) k = if e.1 = k then some e.2 else NumericValues.get m k := by
  unfold NumericValues.get
  rw [List.find?_cons]
  by_cases h : e.1 = k
  · simp [h]
  · simp [h]

theorem any_eq_true_iff_get {V : Type} (m : NumericValues V) (k : String) :
    (m.any fun e => decide (e.1 = k)) = true ↔ NumericValues.get m k ≠ none := by
  induction m with
  | nil => simp [get_nil]
  | cons e rest ih =>
    rw [List.any_cons, get_cons]
    by_cases h : e.1 = k
    · simp [h]
    · simp only [h, decide_False, Bool.false_or, ↓reduceIte]
      exact ih

theorem get_map_set {V : Type} (m : NumericValues V) (k k' : String) (v : V) :
    NumericValues.get (m.map (fun e => if e.1 = k then (k, v) else e)) k' =
      if k' = k then (NumericValues.get m k).map (fun _ => v) else NumericValues.get m k' := by
  induction m with
  | nil => simp [get_nil]
  | cons e rest ih =>
    rw [List.map_cons, get_cons, ih]
    by_cases he : e.1 = k
    · by_cases h : k' = k
      · subst h
        simp [he, get_cons]
      · have h2 : ¬ k = k' := fun x => h x.symm
        have h3 : ¬ e.1 = k' := fun x => h (x.symm.trans he)
        simp [he, h, h2, h3, get_cons]
    · by_cases h : k' = k
      · subst h
        simp [he, get_cons]
      · simp [he, h, get_cons]

theorem get_append_singleton {V : Type} (m : NumericValues V) (k k' : String) (v : V)
    (hm : NumericValues.get m k = none) :
    NumericValues.get (m ++ [(k, v)]) k' =
      if k' = k then some v else NumericValues.get m k' := by
  induction m with
  | nil =>
    rw [List.nil_append, get_cons, get_nil]
    by_cases h : k' = k
    · simp [h]
    · simp [h, Ne.symm h]
  | cons e rest ih =>
    rw [get_cons] at hm
    by_cases he : e.1 = k
    · simp [he] at hm
    · rw [if_neg he] at hm
      rw [List.cons_append, get_cons, get_cons, ih hm]
      by_cases h : e.1 = k'
      · have hk : ¬ k' = k := fun x => he (h.trans x)
        simp [h, hk]
      · simp [h]

theorem get_set {V : Type} (m : NumericValues V) (k k' : String) (v : V) :
    NumericValues.get (m.set k v) k' = if k' = k then some v else NumericValues.get m k' := by
  unfold NumericValues.set
  by_cases hany : (m.any fun e => decide (e.1 = k)) = true
  · rw [if_pos hany, get_map_set]
    have hne := (any_eq_true_iff_get m k).1 hany
    by_cases h : k' = k
    · rw [if_pos h, if_pos h]
      cases hg : NumericValues.get m k with
      | none => exact absurd hg hne
      | some x => rfl
    · rw [if_neg h, if_neg h]
  · rw [if_neg hany]
    have hnone : NumericValues.get m k = none := by
      by_contra hc
      exact hany ((any_eq_true_iff_get m k).2 hc)
    exact get_append_singleton m k k' v hnone

theorem get_pollRegister {R V : Type} (recv : R → Option V) (nv : NumericValues V)
    (r : String × R) (k : String) :
    NumericValues.get (pollRegister recv nv r) k =
      if k = r.1 then
        (match recv r.2 with
          | some v => some v
          | none => NumericValues.get nv k)
      else NumericValues.get nv k := by
  unfold pollRegister
  cases recv r.2 with
  | none => simp
  | some v =>
    simp only
    rw [get_set]

theorem pollRegisters_cons {R V : Type} (r : String × R) (rest : List (String × R))
    (recv : R → Option V) (nv : NumericValues V) :
    pollRegisters (r :: rest) recv nv = pollRegisters rest recv (pollRegister recv nv r) :=
  rfl

theorem get_pollRegisters_of_not_mem {R V : Type} (registers : List (String × R))
    (recv : R → Option V) (nv : NumericValues V) (k : String)
    (hk : k ∉ registers.map Prod.fst) :
    NumericValues.get (pollRegisters registers recv nv) k = NumericValues.get nv k := by
  induction registers generalizing nv with
  | nil => rfl
  | cons r rest ih =>
    rw [List.map_cons, List.mem_cons, not_or] at hk
    rw [pollRegisters_cons, ih _ hk.2, get_pollRegister, if_neg hk.1]

theorem get_pollRegisters_of_mem {R V : Type} (registers : List (String × R))
    (recv : R → Option V) (nv : NumericValues V) (k : String) (reg : R)
    (hnd : (registers.map Prod.fst).Nodup) (hk : (k, reg) ∈ registers) :
    NumericValues.get (pollRegisters registers recv nv) k =
      match recv reg with
      | some v => some v
      | none => NumericValues.get nv k := by
  induction registers generalizing nv with
  | nil => simp at hk
  | cons r rest ih =>
    rw [List.map_cons] at hnd
    obtain ⟨hnot, hnd'⟩ := List.nodup_cons.1 hnd
    rw [pollRegisters_cons]
    rcases List.mem_cons.1 hk with e | e
    · subst e
      rw [get_pollRegisters_of_not_mem _ _ _ _ hnot, get_pollRegister, if_pos rfl]
    · rw [ih _ hnd' e]
      have hne : ¬ k = r.1 := by
        intro hkr
        apply hnot
        rw [← hkr]
        exact List.mem_map.2 ⟨(k, reg), e, rfl⟩
      rw [get_pollRegister, if_neg hne]

theorem pollTick_of_type {R V : Type} (configType : String)
    (list700 list702 registers : List (String × R))
    (htype : (configType = "700" ∧ registers = list700) ∨
      (configType = "702" ∧ registers = list702))
    (recv : R → Option V) (nv : NumericValues V) :
    pollTick configType list700 list702 recv nv = some (pollRegisters registers recv nv) := by
  unfold pollTick
  rcases htype with ⟨h, rfl⟩ | ⟨h, rfl⟩
  · rw [if_pos h]
  · have h7 : ¬ configType = "700" := by rw [h]; decide
    rw [if_neg h7, if_pos h]

theorem pollLoop_cons_of_type {R V : Type} (configType : String)
    (list700 list702 registers : List (String × R))
    (htype : (configType = "700" ∧ registers = list700) ∨
      (configType = "702" ∧ registers = list702))
    (recv : R → Option V) (ticks : List (R → Option V)) (nv : NumericValues V) :
    pollLoop configType list700 list702 (recv :: ticks) nv =
      pollRegisters registers recv nv ::
        pollLoop configType list700 list702 ticks (pollRegisters registers recv nv) := by
  have h := pollTick_of_type configType list700 list702 registers htype recv nv
  rw [pollLoop]
  rw [h]

theorem get_pollRegisters_keepLast {R V : Type} (registers : List (String × R))
    (recv : R → Option V) (nv : NumericValues V) (k : String) (reg : R)
    (hnd : (registers.map Prod.fst).Nodup) (hk : (k, reg) ∈ registers) :
    NumericValues.get (pollRegisters registers recv nv) k =
      keepLast (NumericValues.get nv k) (recv reg) := by
  rw [get_pollRegisters_of_mem registers recv nv k reg hnd hk]
  unfold keepLast
  cases recv reg <;> rfl

theorem pollLoop_last_read {R V : Type} (configType : String)
    (list700 list702 registers : List (String × R))
    (htype : (configType = "700" ∧ registers = list700) ∨
      (configType = "702" ∧ registers = list702))
    (hnd : (registers.map Prod.fst).Nodup) (ticks : List (R → Option V))
    (nv : NumericValues V) :
    (pollLoop configType list700 list702 ticks nv).length = ticks.length ∧
      ∀ i written, (pollLoop configType list700 list702 ticks nv)[i]? = some written →
        (∀ regName reg, (regName, reg) ∈ registers →
          NumericValues.get written regName =
            lastRead (NumericValues.get nv regName)
              ((ticks.take (i + 1)).map (fun recv => recv reg))) ∧
        ∀ regName, regName ∉ registers.map Prod.fst →
          NumericValues.get written regName = NumericValues.get nv regName := by
  induction ticks generalizing nv with
  | nil =>
    refine ⟨rfl, ?_⟩
    intro i written h
    simp [pollLoop] at h
  | cons recv ticks ih =>
    rw [pollLoop_cons_of_type configType list700 list702 registers htype]
    obtain ⟨hlen, hget⟩ := ih (pollRegisters registers recv nv)
    refine ⟨by rw [List.length_cons, hlen, List.length_cons], ?_⟩
    intro i written h
    cases i with
    | zero =>
      rw [List.getElem?_cons_zero] at h
      have e := Option.some.inj h
      subst e
      constructor
      · intro regName reg hmem
        rw [get_pollRegisters_keepLast registers recv nv regName reg hnd hmem]
        rfl
      · intro regName hnot
        exact get_pollRegisters_of_not_mem registers recv nv regName hnot
    | succ i =>
      rw [List.getElem?_cons_succ] at h
      obtain ⟨h1, h2⟩ := hget i written h
      constructor
      · intro regName reg hmem
        rw [h1 regName reg hmem,
          get_pollRegisters_keepLast registers recv nv regName reg hnd hmem]
        rfl
      · intro regName hnot
        rw [h2 regName hnot]
        exact get_pollRegisters_of_not_mem registers recv nv regName hnot

/-! ## The claim on the poll loop -/

/-- C14 (as stated, refuted): the register `MainVoltage` is read in the first
tick and its read fails in the second, and the mapping passed to `Write` in the
second tick still holds the value of the first. -/
theorem BmvStart_writes_stale_value :
    silent 0xED8D = none ∧
      BmvStart "700" oneRegister oneRegister [answers, silent] =
        [[("MainVoltage", 1250)], [("MainVoltage", 1250)]] := by
  decide

/-- C14 (amended): the reader of `BmvStart` keeps its mapping from tick to tick,
so a register whose read fails in a tick contributes no new value but keeps the
old one: in every tick the mapping passed to `Write` holds, for each register of
the table, the value of the last read of that register that succeeded in this
or an earlier tick of the run, and nothing if none has succeeded yet; it holds
nothing under any other name. -/
theorem BmvStart_writes_last_read {R V : Type} (configType : String)
    (list700 list702 registers : List (String × R)) (ticks : List (R → Option V))
    (htype : (configType = "700" ∧ registers = list700) ∨
      (configType = "702" ∧ registers = list702))
    (hnd : (registers.map Prod.fst).Nodup) :
    (BmvStart configType list700 list702 ticks).length = ticks.length ∧
      ∀ i written, (BmvStart configType list700 list702 ticks)[i]? = some written →
        (∀ regName reg, (regName, reg) ∈ registers →
          NumericValues.get written regName =
            lastRead none ((ticks.take (i + 1)).map (fun recv => recv reg))) ∧
        ∀ regName, regName ∉ registers.map Prod.fst →
          NumericValues.get written regName = none :=
  pollLoop_last_read configType list700 list702 registers htype hnd ticks []

/-- C14 (witness): the reader with the one register `MainVoltage`, read as 1250
in the first tick and failing in the second: the mapping written in the second
tick holds 1250, the last value read. -/
theorem BmvStart_writes_last_read_witness :
    (("700" = "700" ∧ oneRegister = oneRegister) ∨
        ("700" = "702" ∧ oneRegister = oneRegister)) ∧
      (oneRegister.map Prod.fst).Nodup ∧
      (BmvStart "700" oneRegister oneRegister [answers, silent])[1]? =
        some [("MainVoltage", 1250)] ∧
      silent 0xED8D = none ∧
      NumericValues.get [("MainVoltage", 1250)] "MainVoltage" =
        lastRead none (([answers, silent].take (1 + 1)).map (fun recv => recv 0xED8D)) ∧
      lastRead none (([answers, silent].take (1 + 1)).map (fun recv => recv 0xED8D)) =
        some 1250 :=
  ⟨by decide, by decide, by decide, by decide,
    ((BmvStart_writes_last_read "700" oneRegister oneRegister oneRegister [answers, silent]
      (by decide) (by decide)).2 1 [("MainVoltage", 1250)] (by decide)).1
      "MainVoltage" 0xED8D (by decide),
    by decide⟩

end BmvDevice

namespace Vedevices

/-! ## The claim on the register tables -/

/-- C16: across the three tables declared in `bmv.go` the signal names are
pairwise distinct and the register addresses are pairwise distinct, so merging
loses nothing: `RegisterListBmv700` has 21 signals and holds every essential
signal unchanged, `RegisterListBmv702` has 26 signals and holds every signal of
`RegisterListBmv700`, and every declared signal, unchanged. -/
theorem register_tables_distinct :
    (declaredTables.map Prod.fst).Nodup ∧
      (declaredTables.map (fun e => e.2.Address)).Nodup ∧
      RegisterListBmv700.length = 21 ∧
      (∀ e ∈ RegisterListBmv700Essential, RegisterListBmv700.get e.1 = some e.2) ∧
      RegisterListBmv702.length = 26 ∧
      (∀ e ∈ RegisterListBmv700, RegisterListBmv702.get e.1 = some e.2) ∧
      (∀ e ∈ declaredTables, RegisterListBmv702.get e.1 = some e.2) := by
  decide

end Vedevices
